import Mathlib

/-!
Verification of connect-cli claims: a shallow embedding of
src/connect/cli/plugins/shared/translation_attr_sync.py and
src/connect/cli/plugins/project/extension/validations.py, together with
theorems settling the frozen claims about them.
-/

namespace ConnectCli

/-! ## Shared diagnostic data model

Modelled from the spec: a Diagnostic Item is a severity (WARNING or ERROR),
a message and a source location; a Validation Outcome is an ordered list of
diagnostic items, a stop-pipeline boolean, and an optional context update.
The concrete classes ValidationItem / ValidationResult live in
connect/cli/plugins/project/validators.py, which is not under src/. -/

/-- Severity of a diagnostic item: the source uses the literal strings
'WARNING' and 'ERROR'. -/
inductive Severity where
  | warning
  | error
deriving DecidableEq, Repr

/-- Source location of a diagnostic item: either a plain file path (the
descriptor file or the extension class file) or a code context produced by
get_code_context in the source. -/
inductive Loc where
  | file (path : String)
  | codeContext (hint : String)
deriving DecidableEq, Repr

/-- The deprecated response classes checked by validate_pyproject_toml:
CustomEventResponse, ProcessingResponse, ProductActionResponse,
ValidationResponse. -/
inductive DeprecatedResponse where
  | customEvent
  | processing
  | productAction
  | validationResp
deriving DecidableEq, Repr

/-- Python values as far as the variable checks need them: the source tests
isinstance(x, str) and isinstance(x, bool) on the optional attributes. -/
inductive PyVal where
  | str (s : String)
  | int (n : Int)
  | boolean (b : Bool)
  | noneV
deriving DecidableEq, Repr

/-- Message of a diagnostic item emitted by validations.py. Each constructor
stands for one f-string of the source, carrying exactly the data interpolated
into it:
- runnerWarning: 'Extensions must depend on *connect-eaas-core* library not *connect-extension-runner*.'
- missingCoreDep: 'No dependency on *connect-eaas-core* has been found.'
- noExtensionDecl: 'No extension declaration has been found. ...'
- cannotLoadClass: 'The extension class *...* cannot be loaded: ....'
- deprecatedResponse: 'The response class *...* has been deprecated in favor of *...*.'
- invalidExtensionDecl: 'Invalid extension declaration in *[tool.poetry.plugins."connect.eaas.ext"]*: ...'
- varNameMandatory: 'Invalid variable declaration: the *name* attribute is mandatory.'
- duplicateVar: 'Duplicate variable name: the variable with name *...* has already been declared.'
- invalidVarName: 'Invalid variable name: the value *...* does not match the pattern *...*.'
- invalidInitialValue: 'Invalid *initial_value* attribute for variable *...*: must be a non-null string not *...*.'
- invalidSecure: 'Invalid *secure* attribute for variable *...*: must be a boolean not *...*.'
- notWrappedWebApp: 'The Web app extension class must be wrapped in *@web_app(router)*.'
- noRouterImpl: 'The Web app extension class must contain at least one router implementation function ...'
- noUIInfo: 'The extension descriptor *extension.json* must contain information about static files. ...'
- noUrlUIItem: 'The extension descriptor *extension.json* contains incorrect ui item *...*, url is not presented.'
- missingStaticFiles: 'The extension descriptor *extension.json* contains missing static files: ....' -/
inductive Msg where
  | runnerWarning
  | missingCoreDep
  | noExtensionDecl
  | cannotLoadClass (clsPath : String) (err : String)
  | deprecatedResponse (d : DeprecatedResponse)
  | invalidExtensionDecl
  | varNameMandatory
  | duplicateVar (n : String)
  | invalidVarName (n : String)
  | invalidInitialValue (n : String) (v : PyVal)
  | invalidSecure (n : String) (v : PyVal)
  | notWrappedWebApp
  | noRouterImpl
  | noUIInfo
  | noUrlUIItem (label : Option String)
  | missingStaticFiles (files : List String)
deriving DecidableEq, Repr

/-- Modelled from the spec: a diagnostic item (ValidationItem of
connect/cli/plugins/project/validators.py, not under src/): severity,
message, source location. -/
structure ValidationItem where
  severity : Severity
  msg : Msg
  loc : Loc
deriving DecidableEq, Repr

/-- Modelled from the spec: a validation outcome (ValidationResult of
connect/cli/plugins/project/validators.py, not under src/): ordered
diagnostic items, the stop-pipeline flag (second positional argument of
ValidationResult in the source), and an optional context update. -/
structure VResult (α : Type) where
  items : List ValidationItem
  mustExit : Bool
  context : Option α
deriving DecidableEq, Repr

/-! ## Spreadsheet synchronizer
(src/connect/cli/plugins/shared/translation_attr_sync.py)

The worksheet is modelled as a list of rows (row 1 first), each row a list
of cells (column 1 first); an absent cell reads as None, written here as
Option String with none for an empty/absent cell. -/

/-- Worksheet grid: rows of cells, 1-based indexing through rowGet/cellGet. -/
abbrev Ws := List (List (Option String))

/-- Row r of the worksheet (1-based), empty when absent. -/
def rowGet (ws : Ws) (r : Nat) : List (Option String) :=
  ws.getD (r - 1) []

/-- Value of cell (r, c) (1-based), none when absent - this is what
openpyxl's ws.cell(r, c).value gives for an empty cell. -/
def cellGet (ws : Ws) (r c : Nat) : Option String :=
  (rowGet ws r).getD (c - 1) none

/-- Pad a list with a default element up to length n (no-op when already
long enough); models openpyxl materialising cells on write. -/
def padTo {α : Type} (l : List α) (n : Nat) (d : α) : List α :=
  l ++ List.replicate (n - l.length) d

/-- Write value v into cell (r, c) (1-based), materialising missing rows and
cells like openpyxl's ws.cell(row, col, value=...). -/
def cellSet (ws : Ws) (r c : Nat) (v : Option String) : Ws :=
  let ws2 := padTo ws r []
  let row := padTo (ws2.getD (r - 1) []) c none
  ws2.set (r - 1) (row.set (c - 1) v)

/-- The per-row update _update_attributes_sheet_row: ws.cell(row_idx, 3,
value='-'). -/
def updateAttributesSheetRow (ws : Ws) (rowIdx : Nat) : Ws :=
  cellSet ws rowIdx 3 (some "-")

/-- Confirmation markers written for a list of row indices: the loop
'for row_idx in attributes.keys(): self._update_attributes_sheet_row(ws, row_idx)'. -/
def markRows (ws : Ws) (rs : List Nat) : Ws :=
  rs.foldl updateAttributesSheetRow ws

/-- Modelled from the spec: the per-module synchronizer statistics
(SynchronizerStats of connect/cli/plugins/shared/sync_stats.py, not under
src/): counters for updated and skipped rows and a list of error entries,
each an error text together with the row range passed to error(). -/
structure MStats where
  updated : Nat
  skipped : Nat
  errors : List (String × List Nat)
deriving DecidableEq, Repr

/-- stats.updated(n): add n to the updated counter. -/
def statsUpdated (st : MStats) (n : Nat) : MStats :=
  { st with updated := st.updated + n }

/-- stats.skipped() applied n times: add n to the skipped counter. -/
def statsSkippedN (st : MStats) (n : Nat) : MStats :=
  { st with skipped := st.skipped + n }

/-- stats.error(msg, rng): record one error entry. -/
def statsError (st : MStats) (m : String) (rng : List Nat) : MStats :=
  { st with errors := st.errors ++ [(m, rng)] }

/-- Payload sent for one attribute row: the dict
\x7b'key': row.key, 'value': row.value, 'comment': row.comment\x7d. -/
structure AttrPayload where
  key : Option String
  value : Option String
  comment : Option String
deriving DecidableEq, Repr

/-- Column positions (1-based) of the key / value / comment / action fields
of the AttributeRow namedtuple. The positions are fixed by
ATTRIBUTES_SHEET_COLUMNS (connect/cli/plugins/shared/constants.py, not under
src/), so they are carried as parameters here. -/
structure SheetCols where
  keyCol : Nat
  valueCol : Nat
  commentCol : Nat
  actionCol : Nat
deriving DecidableEq, Repr

/-- Sheet row indices visited by ws.iter_rows(min_row=2, ...): rows
2 .. max_row, where max_row is the number of rows of the sheet. -/
def dataRowIdxs (ws : Ws) : List Nat :=
  List.range' 2 (ws.length - 1)

/-- The payload built from row r: AttributeRow fields key, value, comment. -/
def payloadAt (cols : SheetCols) (ws : Ws) (r : Nat) : AttrPayload :=
  ⟨cellGet ws r cols.keyCol, cellGet ws r cols.valueCol, cellGet ws r cols.commentCol⟩

/-- Loop body of _collect_attributes_to_update over the given row indices:
rows whose action cell equals 'update' are collected (keyed by row index, in
row order, exactly as the Python dict preserves insertion order), every
other row bumps the skipped counter; the second component counts those
skipped calls. -/
def collectFrom (cols : SheetCols) (ws : Ws) : List Nat → List (Nat × AttrPayload) × Nat
  | [] => ([], 0)
  | r :: rest =>
    let acc := collectFrom cols ws rest
    if cellGet ws r cols.actionCol = some "update" then
      ((r, payloadAt cols ws r) :: acc.1, acc.2)
    else
      (acc.1, acc.2 + 1)

/-- _collect_attributes_to_update: collect over rows 2 .. max_row. -/
def collectAttributes (cols : SheetCols) (ws : Ws) : List (Nat × AttrPayload) × Nat :=
  collectFrom cols ws (dataRowIdxs ws)

/-- Row indices whose action column reads 'update'. -/
def updateRowIdxs (cols : SheetCols) (ws : Ws) : List Nat :=
  (dataRowIdxs ws).filter fun r => decide (cellGet ws r cols.actionCol = some "update")

/-- Result of one synchronizer run: the final worksheet, the final stats and
the list of bulk_update calls attempted (each call carries the payload list
passed to translation_res.attributes.bulk_update). -/
structure SyncOutcome where
  ws : Ws
  stats : MStats
  calls : List (List AttrPayload)
deriving DecidableEq, Repr

/-- _update_attributes: one bulk_update call with list(attributes.values());
on success the updated counter grows by len(attributes) and every collected
row gets the '-' marker in column 3; a ClientError is caught and recorded as
stats.error('Error while updating attributes: ' + str(e),
range(1, len(attributes) + 1)). The remote outcome is the clientRes
parameter. -/
def updateAttributes (clientRes : Except String Unit) (attrs : List (Nat × AttrPayload))
    (ws : Ws) (st : MStats) : SyncOutcome :=
  match clientRes with
  | .ok _ =>
    ⟨markRows ws (attrs.map (·.1)), statsUpdated st attrs.length, [attrs.map (·.2)]⟩
  | .error e =>
    ⟨ws, statsError st ("Error while updating attributes: " ++ e) (List.range' 1 attrs.length),
      [attrs.map (·.2)]⟩

/-- sync: collect the rows to update and, when there are any, push them in a
single bulk_update call. -/
def sync (cols : SheetCols) (clientRes : Except String Unit) (ws : Ws) (st : MStats) :
    SyncOutcome :=
  let collected := collectAttributes cols ws
  let st2 := statsSkippedN st collected.2
  if collected.1.isEmpty then ⟨ws, st2, []⟩
  else updateAttributes clientRes collected.1 ws st2

/-! ### Header validation (_validate_attributes_worksheet) -/

/-- Helper for colLetter with an explicit fuel argument (the fuel n is
always sufficient since the quotient shrinks by a factor 26 per step). -/
def colLetterGo : Nat → Nat → String
  | 0, _ => ""
  | fuel + 1, n =>
    if n ≤ 26 then String.mk [Char.ofNat (64 + n)]
    else colLetterGo fuel ((n - 1) / 26) ++ String.mk [Char.ofNat (65 + (n - 1) % 26)]

/-- Column letter of a 1-based column index, as openpyxl renders cell
coordinates: 1 is A, 26 is Z, 27 is AA and so on. -/
def colLetter (n : Nat) : String := colLetterGo n n

/-- Rendering of a header cell value inside the error f-string: Python
prints None for an empty cell. -/
def cellValueRepr : Option String → String
  | none => "None"
  | some s => s

/-- Header cell value of column i (1-based) of the first worksheet row. -/
def headerValue (hdr : List (Option String)) (i : Nat) : Option String :=
  hdr.getD (i - 1) none

/-- The ClickException text raised on a mismatched header column:
"Column '...' must be '...', but it is '...'" with the cell coordinate of
row 1, the expected schema text and the offending cell value. -/
def headerErrorText (c : Nat) (expected : String) (actual : Option String) : String :=
  "Column \x27" ++ colLetter c ++ "1\x27 must be \x27" ++ expected ++
    "\x27, but it is \x27" ++ cellValueRepr actual ++ "\x27"

/-- Loop of _validate_attributes_worksheet starting at column i: for each
schema column (in order), skip it when the expected text is
'original value', otherwise compare the row-1 cell value with the expected
text and raise on the first mismatch; some errText models the raised
ClickException, none a clean pass. -/
def validateHeaderFrom (hdr : List (Option String)) : List String → Nat → Option String
  | [], _ => none
  | h :: rest, i =>
    if h = "original value" then validateHeaderFrom hdr rest (i + 1)
    else if headerValue hdr i = some h then validateHeaderFrom hdr rest (i + 1)
    else some (headerErrorText i h (headerValue hdr i))

/-- _validate_attributes_worksheet: enumerate(ATTRIBUTES_SHEET_COLUMNS, 1)
over the given schema columns against the header row. -/
def validateAttributesWorksheet (columns : List String) (hdr : List (Option String)) :
    Option String :=
  validateHeaderFrom hdr columns 1

/-! ## Manifest check (validate_pyproject_toml) -/

/-- A loaded Python module as far as validate_pyproject_toml inspects it:
the class names visible via inspect.getmembers / getattr, and which of the
four deprecated response classes occur among its classes. -/
structure PyModule where
  classes : List String
  deprecatedClasses : List DeprecatedResponse
deriving DecidableEq, Repr

/-- Relevant content of the parsed pyproject.toml: the keys of
data['tool']['poetry']['dependencies'], and the
[tool.poetry.plugins."connect.eaas.ext"] section - none when that entry is
absent or not a dict (both fail the isinstance(extension_dict, dict) test),
some assoc list of its entries otherwise. -/
structure PyprojectData where
  dependencies : List String
  extensionDecl : Option (List (String × String))
deriving DecidableEq, Repr

/-- Python dict lookup on an assoc list with unique keys. -/
def lookupStr (entries : List (String × String)) (k : String) : Option String :=
  (entries.find? fun e => decide (e.1 = k)).map (·.2)

/-- str.rsplit(':', 1) followed by 2-tuple unpacking: split at the last
colon; none models the ValueError raised when the string holds no colon. -/
def rsplitColon : List Char → Option (List Char × List Char)
  | [] => none
  | c :: rest =>
    match rsplitColon rest with
    | some (a, b) => some (c :: a, b)
    | none => if c = ':' then some ([], rest) else none

/-- rsplitColon on strings. -/
def rsplitColonStr (s : String) : Option (String × String) :=
  (rsplitColon s.data).map fun p => (String.mk p.1, String.mk p.2)

/-- The fixed list possible_extensions = ['extension', 'webapp', 'anvil']. -/
def possible_extensions : List String := ["extension", "webapp", "anvil"]

/-- The four (deprecated class, replacement) pairs checked, in source
order. -/
def deprecatedChecks : List DeprecatedResponse :=
  [.customEvent, .processing, .productAction, .validationResp]

/-- The WARNING items appended for deprecated response classes found among
the module's classes, in the fixed check order. -/
def deprecatedWarnings (m : PyModule) : List ValidationItem :=
  (deprecatedChecks.filter fun d => decide (d ∈ m.deprecatedClasses)).map
    fun d => ⟨.warning, .deprecatedResponse d, .codeContext "deprecated response class"⟩

/-- Handle of a loaded extension class: the module (package) name and the
class name resolved by getattr. -/
abbrev ExtHandle := String × String

/-- Extension-classes mapping published in the validation context. -/
abbrev ExtMap := List (String × ExtHandle)

/-- Loop of validate_pyproject_toml over possible_extensions: for each
declared type, split the 'package:Class' value, import the package via the
environment env (an import error is caught: the ERROR item is appended and
the whole check returns with the stop flag - the Sum.inl case), append the
deprecated-class warnings, then resolve the class by getattr. The outer
Except models the uncaught Python exceptions: ValueError when the declared
value holds no colon and AttributeError when the class is not a member of
the module. -/
def loopTypes (env : String → Except String PyModule) (entries : List (String × String))
    (descrFile : String) :
    List String → List ValidationItem → ExtMap →
    Except String (Sum (List ValidationItem) (List ValidationItem × ExtMap))
  | [], msgs, exts => .ok (.inr (msgs, exts))
  | ty :: rest, msgs, exts =>
    match lookupStr entries ty with
    | none => loopTypes env entries descrFile rest msgs exts
    | some v =>
      match rsplitColonStr v with
      | none => .error "ValueError: not enough values to unpack"
      | some (pkg, cls) =>
        match env pkg with
        | .error err =>
          .ok (.inl (msgs ++ [⟨.error, .cannotLoadClass v err, .file descrFile⟩]))
        | .ok m =>
          if cls ∈ m.classes then
            loopTypes env entries descrFile rest (msgs ++ deprecatedWarnings m)
              (exts ++ [(ty, (pkg, cls))])
          else .error ("AttributeError: module has no attribute " ++ cls)

/-- validate_pyproject_toml. The loadRes argument models
load_project_toml_file: its error case is the ValidationResult returned
unchanged when the manifest cannot be read; env models importlib. -/
def validate_pyproject_toml (env : String → Except String PyModule) (projectDir : String)
    (loadRes : Except (VResult ExtMap) PyprojectData) : Except String (VResult ExtMap) :=
  match loadRes with
  | .error vr => .ok vr
  | .ok data =>
    let descrFile := projectDir ++ "/pyproject.toml"
    let depMsgs : List ValidationItem :=
      if "connect-extension-runner" ∈ data.dependencies then
        [⟨.warning, .runnerWarning, .file descrFile⟩]
      else if "connect-eaas-core" ∉ data.dependencies then
        [⟨.error, .missingCoreDep, .file descrFile⟩]
      else []
    match data.extensionDecl with
    | none => .ok ⟨depMsgs ++ [⟨.error, .noExtensionDecl, .file descrFile⟩], true, none⟩
    | some entries =>
      match loopTypes env entries descrFile possible_extensions depMsgs [] with
      | .error e => .error e
      | .ok (.inl msgs) => .ok ⟨msgs, true, none⟩
      | .ok (.inr (msgs, exts)) =>
        if exts.isEmpty then
          .ok ⟨msgs ++ [⟨.error, .invalidExtensionDecl, .file descrFile⟩], true, none⟩
        else .ok ⟨msgs, false, some exts⟩

/-- Stop flag of a returned validation result, none when the check raised an
uncaught exception instead of returning. -/
def resultMustExit {α : Type} : Except String (VResult α) → Option Bool
  | .ok vr => some vr.mustExit
  | .error _ => none

/-- Diagnostic items of a returned validation result (empty on an uncaught
exception). -/
def resultItems {α : Type} : Except String (VResult α) → List ValidationItem
  | .ok vr => vr.items
  | .error _ => []

/-- Number of missing-core-dependency ERROR items in a diagnostic list. -/
def countMissingDep (items : List ValidationItem) : Nat :=
  items.countP fun it => decide (it.msg = Msg.missingCoreDep)

/-- Per-type success condition used to state when the class-loading loop
completes without an import error or an uncaught exception: the declared
value splits at a colon, the package imports, and the class is a member of
the module. -/
def cleanFor (env : String → Except String PyModule) (entries : List (String × String))
    (ty : String) : Bool :=
  match lookupStr entries ty with
  | none => true
  | some v =>
    match rsplitColonStr v with
    | none => false
    | some (pkg, cls) =>
      match env pkg with
      | .error _ => false
      | .ok m => decide (cls ∈ m.classes)

/-- All three possible extension types load cleanly. -/
def loadsCleanly (env : String → Except String PyModule)
    (entries : List (String × String)) : Bool :=
  possible_extensions.all (cleanFor env entries)

/-- At least one recognized extension type is declared. -/
def hasDeclared (entries : List (String × String)) : Bool :=
  possible_extensions.any fun ty => (lookupStr entries ty).isSome

/-! ## Variable checks (validate_variables) -/

/-- ASCII letter, the [A-Za-z] class. -/
def isAsciiLetter (c : Char) : Bool :=
  ('A' ≤ c && c ≤ 'Z') || ('a' ≤ c && c ≤ 'z')

/-- The [A-Za-z0-9_\-.] class of the compiled pattern (identical to the
[A-Za-z0-9_.-] class of the spec pattern). -/
def isVarChar (c : Char) : Bool :=
  isAsciiLetter c || ('0' ≤ c && c ≤ '9') || c = '_' || c = '-' || c = '.'

/-- Python's end anchor: a dollar matches at the end of the string or just
before one trailing newline. -/
def dollarAccepts : List Char → Bool
  | [] => true
  | [c] => decide (c = '\n')
  | _ :: _ :: _ => false

/-- Suffixes reachable from cs by consuming one or more characters of the
class p: one step of a + quantifier over a character class. -/
def plusSuffixes (p : Char → Bool) : List Char → List (List Char)
  | [] => []
  | c :: rest => if p c then rest :: plusSuffixes p rest else []

/-- Backtracking matcher for the tail (?:[class]+)*$ of the compiled
pattern r'^[A-Za-z](?:[A-Za-z0-9_\-.]+)*$', with an explicit fuel argument
bounding the star-iteration depth: the dollar may fire here, or one
(+)-block of class characters is consumed and the star continues. Every
(+)-block consumes at least one character, so a fuel equal to the remaining
length (as plusStarDollar passes) is never exhausted. -/
def plusStarDollarGo (p : Char → Bool) : Nat → List Char → Bool
  | 0, cs => dollarAccepts cs
  | fuel + 1, cs => dollarAccepts cs || (plusSuffixes p cs).any (plusStarDollarGo p fuel)

/-- The tail matcher at its sufficient fuel. -/
def plusStarDollar (p : Char → Bool) (cs : List Char) : Bool :=
  plusStarDollarGo p cs.length cs

/-- Matcher for the tail [class]*$ of the spec pattern
^[A-Za-z][A-Za-z0-9_.-]*$. -/
def starDollar (p : Char → Bool) : List Char → Bool
  | [] => true
  | c :: rest => dollarAccepts (c :: rest) || (p c && starDollar p rest)

/-- re.match of the compiled pattern r'^[A-Za-z](?:[A-Za-z0-9_\-.]+)*$'
against a candidate variable name, with Python semantics for the dollar
anchor. -/
def codeNameMatch (s : String) : Bool :=
  match s.data with
  | [] => false
  | c :: rest => isAsciiLetter c && plusStarDollar isVarChar rest

/-- re.match of the spec pattern ^[A-Za-z][A-Za-z0-9_.-]*$ under the same
semantics. -/
def specNameMatch (s : String) : Bool :=
  match s.data with
  | [] => false
  | c :: rest => isAsciiLetter c && starDollar isVarChar rest

/-- One declared variable as far as validate_variables inspects it: the
optional name attribute (the source skips the remaining checks when the
name key is absent; names themselves are taken to be strings, which is what
every later use in the source requires), and the optional initial_value and
secure attributes with arbitrary Python values. -/
structure PyVariable where
  name : Option String
  initial_value : Option PyVal
  secure : Option PyVal
deriving DecidableEq, Repr

/-- isinstance(x, str). -/
def pyIsStr : PyVal → Bool
  | .str _ => true
  | _ => false

/-- isinstance(x, bool). -/
def pyIsBool : PyVal → Bool
  | .boolean _ => true
  | _ => false

/-- The code context passed for every variable diagnostic,
get_code_context(extension_class, '@variables'). -/
def varCtx : Loc := .codeContext "@variables"

/-- Loop body of validate_variables over the class's variable list, with the
running names accumulator: a variable without a name yields the mandatory-name
ERROR and is skipped; a repeated name yields the duplicate ERROR; the name is
then recorded and checked against the compiled pattern; present
initial_value and secure attributes are type-checked. -/
def validateVariablesLoop : List PyVariable → List String → List ValidationItem
  | [], _ => []
  | v :: rest, names =>
    match v.name with
    | none => ⟨.error, .varNameMandatory, varCtx⟩ :: validateVariablesLoop rest names
    | some n =>
      (if n ∈ names then [⟨.error, .duplicateVar n, varCtx⟩] else []) ++
        (if codeNameMatch n then [] else [⟨.error, .invalidVarName n, varCtx⟩]) ++
        (match v.initial_value with
          | some val => if pyIsStr val then [] else [⟨.error, .invalidInitialValue n val, varCtx⟩]
          | none => []) ++
        (match v.secure with
          | some val => if pyIsBool val then [] else [⟨.error, .invalidSecure n val, varCtx⟩]
          | none => []) ++
        validateVariablesLoop rest (names ++ [n])

/-- validate_variables: the loop runs once per extension class (a fresh
names accumulator each time), the messages concatenate in order, the check
never stops the pipeline and passes the context through. -/
def validate_variables (classes : List (String × List PyVariable)) : VResult Unit :=
  ⟨(classes.map fun c => validateVariablesLoop c.2 []).flatten, false, some ()⟩

/-! ## Web-app check (validate_webapp_extension) -/

/-- One item of the descriptor's ui tree: an optional label, an optional
url (the source raises the incorrect-ui-item ERROR when the url key is
absent) and the list of nested children (ui_item.get('children', [])). -/
inductive UIItem where
  | mk (label : Option String) (url : Option String) (children : List UIItem)

/-- Label of a ui item (ui_item.get('label')). -/
def UIItem.label : UIItem → Option String
  | .mk l _ _ => l

/-- Url of a ui item. -/
def UIItem.url : UIItem → Option String
  | .mk _ u _ => u

/-- Children of a ui item. -/
def UIItem.children : UIItem → List UIItem
  | .mk _ _ c => c

mutual

/-- Size of a ui item: one plus the sizes of its descendants. -/
def isize : UIItem → Nat
  | .mk _ _ cs => 1 + isizeList cs

/-- Total size of a worklist of ui items. -/
def isizeList : List UIItem → Nat
  | [] => 0
  | t :: ts => isize t + isizeList ts

end

mutual

/-- All items of a ui subtree, the root first. -/
def allItems : UIItem → List UIItem
  | .mk l u cs => .mk l u cs :: allItemsList cs

/-- All items of the subtrees of a worklist. -/
def allItemsList : List UIItem → List UIItem
  | [] => []
  | t :: ts => allItems t ++ allItemsList ts

end

/-- Worklist processing of the ui items with deque.pop(): pop from the BACK
(the source's choice - a stack), report the popped item when its url is
absent, otherwise record its url when the referenced file is missing and
push its children at the back. The explicit fuel bounds the number of loop
iterations; each iteration trades one item for its strictly smaller
children, so the total worklist size (as walkStack passes) is never
exhausted. -/
def walkStackGo (ex : String → Bool) : Nat → List UIItem → Except UIItem (List String)
  | _, [] => .ok []
  | 0, _ :: _ => .ok []
  | fuel + 1, w :: rest' =>
    let t := (w :: rest').getLast (by simp)
    match t.url with
    | none => .error t
    | some u =>
      match walkStackGo ex fuel ((w :: rest').dropLast ++ t.children) with
      | .error i => .error i
      | .ok l => .ok (if ex u then l else u :: l)

/-- The stack walk at its sufficient fuel. -/
def walkStack (ex : String → Bool) (ws : List UIItem) : Except UIItem (List String) :=
  walkStackGo ex (isizeList ws) ws

/-- The same worklist processing popping from the FRONT (deque.popleft() - a
queue), the variant the spec compares against. -/
def walkQueueGo (ex : String → Bool) : Nat → List UIItem → Except UIItem (List String)
  | _, [] => .ok []
  | 0, _ :: _ => .ok []
  | fuel + 1, t :: rest =>
    match t.url with
    | none => .error t
    | some u =>
      match walkQueueGo ex fuel (rest ++ t.children) with
      | .error i => .error i
      | .ok l => .ok (if ex u then l else u :: l)

/-- The queue walk at its sufficient fuel. -/
def walkQueue (ex : String → Bool) (ws : List UIItem) : Except UIItem (List String) :=
  walkQueueGo ex (isizeList ws) ws

/-- str.strip('/'): drop leading and trailing slashes. -/
def stripSlashes (s : String) : String :=
  String.mk (((s.data.dropWhile fun c => decide (c = '/')).reverse.dropWhile
    fun c => decide (c = '/')).reverse)

/-- os.path.dirname: everything before the last slash (empty when there is
no slash). -/
def dirname (s : String) : String :=
  match rsplitColon (s.data.map fun c => if c = '/' then ':' else c) with
  | some (a, _) => String.mk (a.map fun c => if c = ':' then '/' else c)
  | none => ""

/-- os.path.join of a directory and a relative path. -/
def pjoin (dir rel : String) : String := dir ++ "/" ++ rel

/-- Inputs of validate_webapp_extension: whether a webapp class is declared,
whether its source starts with the @web_app(router) wrapper, whether some
member function is wrapped in a @router decorator, the descriptor's ui
section (none when the 'ui' key is absent; the assoc list holds
descriptor['ui'].items() in order), the file-existence oracle of the
project tree, and the extension class file path. -/
structure WebappInput where
  hasWebapp : Bool
  wrapped : Bool
  hasRouter : Bool
  ui : Option (List (String × UIItem))
  pathExists : String → Bool
  classFile : String

/-- Existence test applied to one ui url, as the source composes it:
os.path.exists(os.path.join(os.path.dirname(extension_class_file),
url.strip('/'))). -/
def urlExists (p : WebappInput) (u : String) : Bool :=
  p.pathExists (pjoin (dirname p.classFile) (stripSlashes u))

/-- validate_webapp_extension: the guard checks, then the worklist walk over
the ui tree; an item without url reports that item and stops at once
(discarding any collected missed files); otherwise all missing files are
reported in one ERROR with the stop flag set. -/
def validate_webapp_extension (p : WebappInput) : VResult Unit :=
  if p.hasWebapp = false then ⟨[], false, some ()⟩
  else if p.wrapped = false then
    ⟨[⟨.error, .notWrappedWebApp, .file p.classFile⟩], true, none⟩
  else if p.hasRouter = false then
    ⟨[⟨.error, .noRouterImpl, .file p.classFile⟩], true, none⟩
  else
    match p.ui with
    | none => ⟨[⟨.error, .noUIInfo, .file p.classFile⟩], true, none⟩
    | some entries =>
      match walkStack (urlExists p) (entries.map (·.2)) with
      | .error t => ⟨[⟨.error, .noUrlUIItem t.label, .file p.classFile⟩], true, none⟩
      | .ok missed =>
        if missed.isEmpty then ⟨[], false, some ()⟩
        else ⟨[⟨.error, .missingStaticFiles missed, .file p.classFile⟩], true, none⟩

/-- The url of an item when the referenced file is missing. -/
def missUrl (ex : String → Bool) (t : UIItem) : Option String :=
  match t.url with
  | some u => if ex u then none else some u
  | none => none

/-- Missing urls over all items of a worklist's subtrees. -/
def missedOfList (ex : String → Bool) (ws : List UIItem) : List String :=
  (allItemsList ws).filterMap (missUrl ex)

/-! ## Concrete instances used by witnesses and counterexamples -/

/-- Concrete worksheet for claim C4: two data rows (sheet rows 2 and 3),
both flagged update. -/
def c4ws : Ws :=
  [[some "key"], [some "k1", some "v1", none, some "update"],
   [some "k2", some "v2", none, some "update"]]

/-- Concrete manifest for the C9 witness: runner dependency declared, no
registration section. -/
def c9data : PyprojectData := ⟨["connect-extension-runner"], none⟩

/-- Trivial import environment for the C9 witness. -/
def c9env : String → Except String PyModule := fun _ => .error "No module"

/-- Concrete manifest for the C3 counterexample: the runner dependency is
declared, the core dependency is absent, a loadable extension is
registered. -/
def c3data : PyprojectData :=
  ⟨["connect-extension-runner"], some [("extension", "pkg:MyExt")]⟩

/-- Import environment for the C3 counterexample: the package pkg exposes
the class MyExt and no deprecated response classes. -/
def c3env : String → Except String PyModule :=
  fun p => if p = "pkg" then .ok ⟨["MyExt"], []⟩ else .error "No module"

/-- Clean manifest for the amended-C3 witness: no dependencies at all, one
loadable extension declared. -/
def c3cleanData : PyprojectData := ⟨[], some [("extension", "pkg:MyExt")]⟩

/-- Concrete web-app input for the C2 witness: a two-level ui tree whose
files are all missing. -/
def c2input : WebappInput :=
  ⟨true, true, true,
    some [("a", UIItem.mk (some "L") (some "/x") [UIItem.mk none (some "/y") []])],
    fun _ => false, "dir/ext.py"⟩

/-- Concrete web-app input for the C10 witness: the single ui item lacks a
url. -/
def c10input : WebappInput :=
  ⟨true, true, true, some [("a", UIItem.mk (some "bad") none [])],
    fun _ => true, "dir/ext.py"⟩

/-! ## Generic list lemmas used by several claims -/

theorem getD_set_ne {α : Type} (l : List α) (i j : Nat) (a d : α) (h : i ≠ j) :
    (l.set i a).getD j d = l.getD j d := by
  induction l generalizing i j with
  | nil => simp
  | cons x xs ih =>
    cases i with
    | zero => cases j with
      | zero => exact absurd rfl h
      | succ j' => simp [List.set, List.getD]
    | succ i' => cases j with
      | zero => simp [List.set, List.getD]
      | succ j' =>
        simp only [List.set, List.getD_cons_succ]
        exact ih i' j' (by omega)

theorem getD_set_self {α : Type} (l : List α) (i : Nat) (a d : α) (h : i < l.length) :
    (l.set i a).getD i d = a := by
  induction l generalizing i with
  | nil => simp at h
  | cons x xs ih =>
    cases i with
    | zero => simp [List.set, List.getD]
    | succ i' =>
      simp only [List.set, List.getD_cons_succ]
      exact ih i' (by simpa using h)

theorem padTo_eq_self {α : Type} (l : List α) (n : Nat) (d : α) (h : n ≤ l.length) :
    padTo l n d = l := by
  unfold padTo
  rw [Nat.sub_eq_zero_of_le h]
  simp

theorem padTo_length {α : Type} (l : List α) (n : Nat) (d : α) :
    (padTo l n d).length = max l.length n := by
  unfold padTo
  simp
  omega

/-! ## Claim C6: header validation -/

theorem validateHeaderFrom_firstMismatch :
    ∀ (cols : List String) (hdr : List (Option String)) (i k : Nat) (h : String),
      cols.get? k = some h → h ≠ "original value" → headerValue hdr (i + k) ≠ some h →
      (∀ j hj, j < k → cols.get? j = some hj →
        hj = "original value" ∨ headerValue hdr (i + j) = some hj) →
      validateHeaderFrom hdr cols i =
        some (headerErrorText (i + k) h (headerValue hdr (i + k))) := by
  intro cols
  induction cols with
  | nil => intro hdr i k h hget; simp at hget
  | cons c rest ih =>
    intro hdr i k h hget hne hmis hpre
    cases k with
    | zero =>
      simp at hget
      subst hget
      simp only [Nat.add_zero] at hmis ⊢
      unfold validateHeaderFrom
      rw [if_neg hne, if_neg hmis]
    | succ k' =>
      have h0 := hpre 0 c (by omega) (by simp)
      have hstep : validateHeaderFrom hdr (c :: rest) i = validateHeaderFrom hdr rest (i + 1) := by
        conv_lhs => rw [validateHeaderFrom]
        rcases h0 with h0 | h0
        · rw [if_pos h0]
        · by_cases hc : c = "original value"
          · rw [if_pos hc]
          · rw [if_neg hc]
            simp only [Nat.add_zero] at h0
            rw [if_pos h0]
      rw [hstep]
      have harith : i + 1 + k' = i + (k' + 1) := by omega
      rw [show i + (k' + 1) = i + 1 + k' from by omega] at hmis ⊢
      exact ih hdr (i + 1) k' h (by simpa using hget) hne hmis
        (fun j hj hlt hgj => by
          have := hpre (j + 1) hj (by omega) (by simpa using hgj)
          rcases this with h1 | h1
          · exact Or.inl h1
          · exact Or.inr (by rw [show i + 1 + j = i + (j + 1) from by omega]; exact h1))

/-- Claim C6: header validation raises on the first column, in schema order,
whose row-1 cell differs from the expected schema text - with the single
exemption of the column name 'original value' - and the raised message
carries the exact cell coordinate (column letter of the 1-based position,
row 1) and the expected text; header cells beyond the first mismatched
column never influence the outcome (fail-fast). Positions: k is the 0-based
position in the schema list, so the worksheet column index is k + 1. -/
theorem headerValidation_claim (columns : List String) (hdr : List (Option String))
    (k : Nat) (h : String)
    (hget : columns.get? k = some h) (hne : h ≠ "original value")
    (hmis : headerValue hdr (k + 1) ≠ some h)
    (hpre : ∀ j hj, j < k → columns.get? j = some hj →
      hj = "original value" ∨ headerValue hdr (j + 1) = some hj) :
    validateAttributesWorksheet columns hdr =
      some ("Column \x27" ++ colLetter (k + 1) ++ "1\x27 must be \x27" ++ h ++
        "\x27, but it is \x27" ++ cellValueRepr (headerValue hdr (k + 1)) ++ "\x27") ∧
    ∀ hdr2, (∀ j, j ≤ k + 1 → headerValue hdr2 j = headerValue hdr j) →
      validateAttributesWorksheet columns hdr2 = validateAttributesWorksheet columns hdr := by
  have hmain : validateAttributesWorksheet columns hdr =
      some (headerErrorText (k + 1) h (headerValue hdr (k + 1))) := by
    unfold validateAttributesWorksheet
    have := validateHeaderFrom_firstMismatch columns hdr 1 k h hget hne
      (by rw [show (1 : Nat) + k = k + 1 from by omega]; exact hmis)
      (fun j hj hlt hgj => by
        have := hpre j hj hlt hgj
        rwa [show (1 : Nat) + j = j + 1 from by omega])
    rwa [show (1 : Nat) + k = k + 1 from by omega] at this
  constructor
  · rw [hmain]; rfl
  · intro hdr2 hagree
    have hmain2 : validateAttributesWorksheet columns hdr2 =
        some (headerErrorText (k + 1) h (headerValue hdr2 (k + 1))) := by
      unfold validateAttributesWorksheet
      have := validateHeaderFrom_firstMismatch columns hdr2 1 k h hget hne
        (by rw [show (1 : Nat) + k = k + 1 from by omega, hagree (k + 1) (by omega)]
            exact hmis)
        (fun j hj hlt hgj => by
          have := hpre j hj hlt hgj
          rw [show (1 : Nat) + j = j + 1 from by omega, hagree (j + 1) (by omega)]
          exact this)
      rwa [show (1 : Nat) + k = k + 1 from by omega] at this
    rw [hmain2, hmain, hagree (k + 1) (by omega)]

/-- Witness for C6 at a concrete schema and workbook: the second column
header reads 'oops' instead of 'value', and validation reports cell B1 with
the expected text. -/
theorem headerValidation_claim_witness :
    validateAttributesWorksheet ["key", "value"] [some "key", some "oops"] =
      some "Column \x27B1\x27 must be \x27value\x27, but it is \x27oops\x27" := by
  have h := headerValidation_claim ["key", "value"] [some "key", some "oops"] 1 "value"
    (by decide) (by decide) (by decide)
    (fun j hj hlt hgj => by
      have hj0 : j = 0 := by omega
      subst hj0
      simp at hgj
      subst hgj
      right
      decide)
  exact h.1.trans (by decide)

/-! ## Claim C7: duplicate variable names -/

theorem validateVariablesLoop_dupCount :
    ∀ (vars : List PyVariable) (names : List String) (n : String),
      (validateVariablesLoop vars names).countP
          (fun it => decide (it.msg = Msg.duplicateVar n)) =
        (vars.countP fun v => decide (v.name = some n)) -
          (if n ∈ names then 0 else
            min (vars.countP fun v => decide (v.name = some n)) 1) := by
  intro vars
  induction vars with
  | nil => intro names n; simp [validateVariablesLoop]
  | cons v rest ih =>
    intro names n
    cases hv : v.name with
    | none =>
      rw [validateVariablesLoop]
      simp only [hv]
      rw [List.countP_cons, List.countP_cons]
      have h1 : (decide ((⟨.error, .varNameMandatory, varCtx⟩ : ValidationItem).msg =
          Msg.duplicateVar n)) = false := by simp
      have h2 : (decide (v.name = some n)) = false := by simp [hv]
      rw [h1, h2]
      simp only [Bool.false_eq_true, if_false, Nat.add_zero]
      exact ih names n
    | some m =>
      rw [validateVariablesLoop]
      simp only [hv]
      rw [List.countP_append, List.countP_append, List.countP_append, List.countP_append]
      have hpat : (if codeNameMatch m then ([] : List ValidationItem) else
          [⟨.error, .invalidVarName m, varCtx⟩]).countP
            (fun it => decide (it.msg = Msg.duplicateVar n)) = 0 := by
        by_cases hc : codeNameMatch m <;> simp [hc]
      have hiv : (match v.initial_value with
          | some val => if pyIsStr val then ([] : List ValidationItem) else
              [⟨.error, .invalidInitialValue m val, varCtx⟩]
          | none => ([] : List ValidationItem)).countP
            (fun it : ValidationItem => decide (it.msg = Msg.duplicateVar n)) = 0 := by
        cases v.initial_value with
        | none => simp
        | some val => by_cases hs : pyIsStr val <;> simp [hs]
      have hsec : (match v.secure with
          | some val => if pyIsBool val then ([] : List ValidationItem) else
              [⟨.error, .invalidSecure m val, varCtx⟩]
          | none => ([] : List ValidationItem)).countP
            (fun it : ValidationItem => decide (it.msg = Msg.duplicateVar n)) = 0 := by
        cases v.secure with
        | none => simp
        | some val => by_cases hs : pyIsBool val <;> simp [hs]
      rw [hpat, hiv, hsec, ih (names ++ [m]) n, List.countP_cons]
      simp only [hv]
      by_cases hmn : m = n
      · subst hmn
        have hd : (decide ((some m : Option String) = some m)) = true := by simp
        rw [hd]
        simp only [eq_self_iff_true, if_true]
        have hm2 : m ∈ names ++ [m] := by simp
        rw [if_pos hm2]
        by_cases hmem : m ∈ names
        · rw [if_pos hmem, if_pos hmem]
          have hone : (([⟨.error, .duplicateVar m, varCtx⟩] : List ValidationItem).countP
              (fun it => decide (it.msg = Msg.duplicateVar m))) = 1 := by simp
          rw [hone]
          omega
        · rw [if_neg hmem, if_neg hmem]
          simp only [List.countP_nil]
          omega
      · have hd : (decide ((some m : Option String) = some n)) = false := by simp [hmn]
        rw [hd]
        simp only [Bool.false_eq_true, if_false]
        have hdup0 : ((if m ∈ names then
            [(⟨.error, .duplicateVar m, varCtx⟩ : ValidationItem)] else []).countP
              (fun it => decide (it.msg = Msg.duplicateVar n))) = 0 := by
          by_cases hmem : m ∈ names
          · rw [if_pos hmem]
            simp [hmn]
          · rw [if_neg hmem]; simp
        rw [hdup0]
        have hmemiff : (n ∈ names ++ [m]) ↔ n ∈ names := by
          simp
          intro hnm
          exact absurd hnm.symm hmn
        by_cases hmem : n ∈ names
        · rw [if_pos (hmemiff.mpr hmem), if_pos hmem]
          omega
        · rw [if_neg (fun hc => hmem (hmemiff.mp hc)), if_neg hmem]
          omega

/-- Claim C7: a variable list holding exactly two entries with the same
name yields exactly one duplicate-name ERROR for that name, whatever the
other per-variable validations emit. -/
theorem duplicateVariable_claim (kind : String) (vars : List PyVariable) (n : String)
    (h2 : vars.countP (fun v => decide (v.name = some n)) = 2) :
    ((validate_variables [(kind, vars)]).items.countP
      (fun it => decide (it.msg = Msg.duplicateVar n))) = 1 := by
  have : (validate_variables [(kind, vars)]).items = validateVariablesLoop vars [] := by
    simp [validate_variables]
  rw [this, validateVariablesLoop_dupCount vars [] n, h2]
  simp

/-- Witness for C7: two variables both named A, one of them also failing the
initial_value and secure checks; the duplicate ERROR is still reported
exactly once. -/
theorem duplicateVariable_claim_witness :
    ((validate_variables
        [("extension", [⟨some "A", none, none⟩,
          ⟨some "A", some (.int 3), some (.int 1)⟩])]).items.countP
      (fun it => decide (it.msg = Msg.duplicateVar "A"))) = 1 :=
  duplicateVariable_claim "extension"
    [⟨some "A", none, none⟩, ⟨some "A", some (.int 3), some (.int 1)⟩] "A" (by decide)

/-! ## Claim C8: the variable-name pattern -/

theorem length_lt_of_mem_plusSuffixes (p : Char → Bool) :
    ∀ cs x, x ∈ plusSuffixes p cs → x.length < cs.length := by
  intro cs
  induction cs with
  | nil => intro x hx; simp [plusSuffixes] at hx
  | cons c rest ih =>
    intro x hx
    simp only [plusSuffixes] at hx
    by_cases hp : p c
    · simp [hp] at hx
      rcases hx with rfl | hx
      · simp
      · have := ih x hx
        simp; omega
    · simp [hp] at hx

theorem starDollar_absorb (p : Char → Bool) :
    ∀ cs x, x ∈ plusSuffixes p cs → starDollar p x = true → starDollar p cs = true := by
  intro cs
  induction cs with
  | nil => intro x hx; simp [plusSuffixes] at hx
  | cons c rest ih =>
    intro x hx hsd
    simp only [plusSuffixes] at hx
    by_cases hp : p c
    · rw [if_pos hp] at hx
      rcases List.mem_cons.mp hx with rfl | hx
      · rw [starDollar]
        rw [hp, hsd]
        simp
      · have := ih x hx hsd
        rw [starDollar, hp, this]
        simp
    · rw [if_neg hp] at hx
      simp at hx

theorem plusStarDollarGo_eq_starDollar (p : Char → Bool) :
    ∀ (fuel : Nat) (cs : List Char), cs.length ≤ fuel →
      plusStarDollarGo p fuel cs = starDollar p cs := by
  intro fuel
  induction fuel with
  | zero =>
    intro cs hlen
    have : cs = [] := by
      cases cs with
      | nil => rfl
      | cons c r => simp at hlen
    subst this
    rfl
  | succ N ih =>
    intro cs hlen
    rw [plusStarDollarGo]
    cases hsd : starDollar p cs with
    | true =>
      cases cs with
      | nil => simp [dollarAccepts]
      | cons c rest =>
        rw [starDollar] at hsd
        rcases Bool.or_eq_true_iff.mp hsd with hda | hrec
        · rw [hda]
          simp
        · have hp : p c = true := (Bool.and_eq_true_iff.mp hrec).1
          have hrest : starDollar p rest = true := (Bool.and_eq_true_iff.mp hrec).2
          have hmem : rest ∈ plusSuffixes p (c :: rest) := by
            simp [plusSuffixes, hp]
          have hplus : plusStarDollarGo p N rest = true := by
            rw [ih rest (by simp at hlen; omega)]
            exact hrest
          apply Bool.or_eq_true_iff.mpr
          right
          exact List.any_eq_true.mpr ⟨rest, hmem, hplus⟩
    | false =>
      apply Bool.or_eq_false_iff.mpr
      constructor
      · cases cs with
        | nil => rw [starDollar] at hsd; exact absurd hsd (by simp)
        | cons c rest =>
          rw [starDollar] at hsd
          exact (Bool.or_eq_false_iff.mp hsd).1
      · cases hany : (plusSuffixes p cs).any (plusStarDollarGo p N) with
        | false => rfl
        | true =>
          exfalso
          rcases List.any_eq_true.mp hany with ⟨x, hx, hpx⟩
          have hxlen : x.length ≤ N := by
            have := length_lt_of_mem_plusSuffixes p cs x hx
            omega
          rw [ih x hxlen] at hpx
          have habs := starDollar_absorb p cs x hx hpx
          rw [habs] at hsd
          exact absurd hsd (by simp)

theorem plusStarDollar_eq_starDollar (p : Char → Bool) (cs : List Char) :
    plusStarDollar p cs = starDollar p cs :=
  plusStarDollarGo_eq_starDollar p cs.length cs le_rfl

theorem codeNameMatch_eq_specNameMatch (s : String) :
    codeNameMatch s = specNameMatch s := by
  rw [codeNameMatch, specNameMatch]
  cases s.data with
  | nil => rfl
  | cons c rest =>
    show (isAsciiLetter c && plusStarDollar isVarChar rest) =
      (isAsciiLetter c && starDollar isVarChar rest)
    rw [plusStarDollar_eq_starDollar]

theorem validateVariablesLoop_mem (vars : List PyVariable) :
    ∀ (names : List String) (v : PyVariable), v ∈ vars → ∀ n, v.name = some n →
      ((codeNameMatch n = false →
        (⟨.error, .invalidVarName n, varCtx⟩ : ValidationItem) ∈
          validateVariablesLoop vars names) ∧
       (∀ val, v.initial_value = some val → pyIsStr val = false →
        (⟨.error, .invalidInitialValue n val, varCtx⟩ : ValidationItem) ∈
          validateVariablesLoop vars names) ∧
       (∀ val, v.secure = some val → pyIsBool val = false →
        (⟨.error, .invalidSecure n val, varCtx⟩ : ValidationItem) ∈
          validateVariablesLoop vars names)) := by
  induction vars with
  | nil => intro names v hv; simp at hv
  | cons w rest ih =>
    intro names v hv n hname
    rcases List.mem_cons.mp hv with rfl | hv
    · rw [validateVariablesLoop]
      simp only [hname]
      refine ⟨?_, ?_, ?_⟩
      · intro hbad
        rw [hbad]
        simp
      · intro val hval hbad
        rw [hval]
        simp [hbad]
      · intro val hval hbad
        rw [hval]
        simp [hbad]
    · rw [validateVariablesLoop]
      cases hw : w.name with
      | none =>
        have this := ih names v hv n hname
        refine ⟨?_, ?_, ?_⟩
        · intro hbad
          exact List.mem_cons_of_mem _ (this.1 hbad)
        · intro val hval hbad
          exact List.mem_cons_of_mem _ (this.2.1 val hval hbad)
        · intro val hval hbad
          exact List.mem_cons_of_mem _ (this.2.2 val hval hbad)
      | some m =>
        have this := ih (names ++ [m]) v hv n hname
        refine ⟨?_, ?_, ?_⟩
        · intro hbad
          simp only [List.mem_append]
          exact Or.inr (this.1 hbad)
        · intro val hval hbad
          simp only [List.mem_append]
          exact Or.inr (this.2.1 val hval hbad)
        · intro val hval hbad
          simp only [List.mem_append]
          exact Or.inr (this.2.2 val hval hbad)

theorem validateVariablesLoop_no_invalidName (n : String) (hknown : codeNameMatch n = true) :
    ∀ (vars : List PyVariable) (names : List String),
      ∀ it ∈ validateVariablesLoop vars names, it.msg ≠ Msg.invalidVarName n := by
  intro vars
  induction vars with
  | nil => intro names it hit; simp [validateVariablesLoop] at hit
  | cons w rest ih =>
    intro names it hit
    rw [validateVariablesLoop] at hit
    cases hw : w.name with
    | none =>
      rw [hw] at hit
      rcases List.mem_cons.mp hit with rfl | hit
      · simp
      · exact ih names it hit
    | some m =>
      rw [hw] at hit
      simp only [List.mem_append] at hit
      rcases hit with (((hit | hit) | hit) | hit) | hit
      · by_cases hmem : m ∈ names
        · simp [hmem] at hit
          subst hit
          simp
        · simp [hmem] at hit
      · by_cases hc : codeNameMatch m
        · simp [hc] at hit
        · simp [hc] at hit
          subst hit
          simp only [ne_eq, Msg.invalidVarName.injEq]
          intro hmn
          rw [hmn] at hc
          exact hc hknown
      · cases hival : w.initial_value with
        | none => rw [hival] at hit; simp at hit
        | some val =>
          rw [hival] at hit
          by_cases hs : pyIsStr val
          · simp [hs] at hit
          · simp [hs] at hit
            subst hit
            simp
      · cases hsecv : w.secure with
        | none => rw [hsecv] at hit; simp at hit
        | some val =>
          rw [hsecv] at hit
          by_cases hs : pyIsBool val
          · simp [hs] at hit
          · simp [hs] at hit
            subst hit
            simp
      · exact ih (names ++ [m]) it hit

/-- Claim C8: the compiled pattern and the spec pattern accept exactly the
same strings (both are checked here under Python's re.match semantics,
including the dollar anchor also matching before one trailing newline); a
variable whose name the pattern rejects always yields the name-pattern
ERROR and one whose name it accepts never does; a present initial_value
that is not a string, and a present secure flag that is not a boolean, each
yield their type ERROR. -/
theorem variablePattern_claim :
    (∀ s, codeNameMatch s = specNameMatch s) ∧
    (∀ (kind : String) (vars : List PyVariable) (v : PyVariable), v ∈ vars →
      ∀ n, v.name = some n →
        ((codeNameMatch n = false →
          (⟨.error, .invalidVarName n, varCtx⟩ : ValidationItem) ∈
            (validate_variables [(kind, vars)]).items) ∧
         (codeNameMatch n = true →
          ∀ it ∈ (validate_variables [(kind, vars)]).items, it.msg ≠ Msg.invalidVarName n) ∧
         (∀ val, v.initial_value = some val → pyIsStr val = false →
          (⟨.error, .invalidInitialValue n val, varCtx⟩ : ValidationItem) ∈
            (validate_variables [(kind, vars)]).items) ∧
         (∀ val, v.secure = some val → pyIsBool val = false →
          (⟨.error, .invalidSecure n val, varCtx⟩ : ValidationItem) ∈
            (validate_variables [(kind, vars)]).items))) := by
  have hitems : ∀ (kind : String) (vars : List PyVariable),
      (validate_variables [(kind, vars)]).items = validateVariablesLoop vars [] := by
    intro kind vars
    simp [validate_variables]
  refine ⟨codeNameMatch_eq_specNameMatch, ?_⟩
  intro kind vars v hv n hname
  rw [hitems]
  have hmem := validateVariablesLoop_mem vars [] v hv n hname
  refine ⟨hmem.1, ?_, hmem.2.1, hmem.2.2⟩
  intro hgood it hit
  exact validateVariablesLoop_no_invalidName n hgood vars [] it hit

/-- Witness for C8 at concrete data: the name 9bad is rejected by both
patterns and yields the name-pattern ERROR, the name ok.name-1 is accepted
by both and yields none, and the ill-typed optional attributes are both
reported. -/
theorem variablePattern_claim_witness :
    (codeNameMatch "9bad" = specNameMatch "9bad" ∧ codeNameMatch "9bad" = false) ∧
    (codeNameMatch "ok.name-1" = specNameMatch "ok.name-1" ∧
      codeNameMatch "ok.name-1" = true) ∧
    (⟨.error, .invalidVarName "9bad", varCtx⟩ : ValidationItem) ∈
      (validate_variables [("extension",
        [⟨some "9bad", some (.int 3), some (.boolean true)⟩,
         ⟨some "ok.name-1", some (.noneV), some (.int 1)⟩])]).items ∧
    (∀ it ∈ (validate_variables [("extension",
        [⟨some "9bad", some (.int 3), some (.boolean true)⟩,
         ⟨some "ok.name-1", some (.noneV), some (.int 1)⟩])]).items,
      it.msg ≠ Msg.invalidVarName "ok.name-1") ∧
    (⟨.error, .invalidInitialValue "ok.name-1" (.noneV), varCtx⟩ : ValidationItem) ∈
      (validate_variables [("extension",
        [⟨some "9bad", some (.int 3), some (.boolean true)⟩,
         ⟨some "ok.name-1", some (.noneV), some (.int 1)⟩])]).items ∧
    (⟨.error, .invalidSecure "ok.name-1" (.int 1), varCtx⟩ : ValidationItem) ∈
      (validate_variables [("extension",
        [⟨some "9bad", some (.int 3), some (.boolean true)⟩,
         ⟨some "ok.name-1", some (.noneV), some (.int 1)⟩])]).items := by
  have h := variablePattern_claim
  have h1 := h.2 "extension"
    [⟨some "9bad", some (.int 3), some (.boolean true)⟩,
     ⟨some "ok.name-1", some (.noneV), some (.int 1)⟩]
    ⟨some "9bad", some (.int 3), some (.boolean true)⟩ (by simp) "9bad" rfl
  have h2 := h.2 "extension"
    [⟨some "9bad", some (.int 3), some (.boolean true)⟩,
     ⟨some "ok.name-1", some (.noneV), some (.int 1)⟩]
    ⟨some "ok.name-1", some (.noneV), some (.int 1)⟩ (by simp) "ok.name-1" rfl
  refine ⟨⟨h.1 "9bad", by decide⟩, ⟨h.1 "ok.name-1", by decide⟩, ?_, ?_, ?_, ?_⟩
  · exact h1.1 (by decide)
  · exact h2.2.1 (by decide)
  · exact h2.2.2.1 (.noneV) rfl (by decide)
  · exact h2.2.2.2 (.int 1) rfl (by decide)

/-! ## Claims C1, C4, C5: the synchronizer run -/

theorem length_cellSet (ws : Ws) (r c : Nat) (v : Option String) (h : r ≤ ws.length) :
    (cellSet ws r c v).length = ws.length := by
  unfold cellSet
  rw [padTo_eq_self ws r [] h]
  simp

theorem rowGet_cellSet_ne (ws : Ws) (r c : Nat) (v : Option String) (r' : Nat)
    (h : r ≤ ws.length) (hr : 1 ≤ r) (hr' : 1 ≤ r') (hne : r' ≠ r) :
    rowGet (cellSet ws r c v) r' = rowGet ws r' := by
  unfold cellSet rowGet
  rw [padTo_eq_self ws r [] h]
  exact getD_set_ne ws (r - 1) (r' - 1) _ [] (by omega)

theorem cellGet_cellSet_self (ws : Ws) (r c : Nat) (v : Option String)
    (hr : 1 ≤ r) (h : r ≤ ws.length) (hc : 1 ≤ c) :
    cellGet (cellSet ws r c v) r c = v := by
  unfold cellGet cellSet rowGet
  rw [padTo_eq_self ws r [] h]
  rw [getD_set_self ws (r - 1) _ [] (by omega)]
  apply getD_set_self
  rw [padTo_length]
  omega

theorem length_markRows : ∀ (rs : List Nat) (ws : Ws),
    (∀ x ∈ rs, x ≤ ws.length) → (markRows ws rs).length = ws.length := by
  intro rs
  induction rs with
  | nil => intro ws _; rfl
  | cons a rs ih =>
    intro ws hb
    have ha : a ≤ ws.length := hb a (by simp)
    have h1 : (updateAttributesSheetRow ws a).length = ws.length :=
      length_cellSet ws a 3 (some "-") ha
    calc (markRows ws (a :: rs)).length
        = (markRows (updateAttributesSheetRow ws a) rs).length := rfl
      _ = (updateAttributesSheetRow ws a).length := by
          apply ih
          intro x hx
          rw [h1]
          exact hb x (by simp [hx])
      _ = ws.length := h1

theorem rowGet_markRows_notMem : ∀ (rs : List Nat) (ws : Ws) (r : Nat),
    (∀ x ∈ rs, 1 ≤ x ∧ x ≤ ws.length) → 1 ≤ r → r ∉ rs →
    rowGet (markRows ws rs) r = rowGet ws r := by
  intro rs
  induction rs with
  | nil => intro ws r _ _ _; rfl
  | cons a rs ih =>
    intro ws r hb hr hnm
    have ha := hb a (by simp)
    have h1 : (updateAttributesSheetRow ws a).length = ws.length :=
      length_cellSet ws a 3 (some "-") ha.2
    have hrm : r ∉ rs := fun hc => hnm (by simp [hc])
    have hra : r ≠ a := fun hc => hnm (by simp [hc])
    calc rowGet (markRows ws (a :: rs)) r
        = rowGet (markRows (updateAttributesSheetRow ws a) rs) r := rfl
      _ = rowGet (updateAttributesSheetRow ws a) r := by
          apply ih _ _ (fun x hx => ?_) hr hrm
          rw [h1]
          exact hb x (by simp [hx])
      _ = rowGet ws r := rowGet_cellSet_ne ws a 3 (some "-") r ha.2 ha.1 hr hra

theorem cellGet_markRows_mem : ∀ (rs : List Nat) (ws : Ws) (r : Nat),
    (∀ x ∈ rs, 1 ≤ x ∧ x ≤ ws.length) → rs.Nodup → r ∈ rs →
    cellGet (markRows ws rs) r 3 = some "-" := by
  intro rs
  induction rs with
  | nil => intro ws r _ _ hmem; simp at hmem
  | cons a rs ih =>
    intro ws r hb hnd hmem
    have ha := hb a (by simp)
    have h1 : (updateAttributesSheetRow ws a).length = ws.length :=
      length_cellSet ws a 3 (some "-") ha.2
    rcases List.mem_cons.mp hmem with rfl | hmem
    · have hnotin : r ∉ rs := (List.nodup_cons.mp hnd).1
      have : rowGet (markRows (updateAttributesSheetRow ws r) rs) r =
          rowGet (updateAttributesSheetRow ws r) r := by
        apply rowGet_markRows_notMem _ _ _ (fun x hx => ?_) ha.1 hnotin
        rw [h1]
        exact hb x (by simp [hx])
      show cellGet (markRows (updateAttributesSheetRow ws r) rs) r 3 = some "-"
      unfold cellGet
      rw [this]
      show cellGet (updateAttributesSheetRow ws r) r 3 = some "-"
      exact cellGet_cellSet_self ws r 3 (some "-") ha.1 ha.2 (by omega)
    · apply ih _ _ (fun x hx => ?_) (List.nodup_cons.mp hnd).2 hmem
      rw [h1]
      exact hb x (by simp [hx])

theorem collectFrom_fst (cols : SheetCols) (ws : Ws) : ∀ rs : List Nat,
    (collectFrom cols ws rs).1 =
      (rs.filter fun r => decide (cellGet ws r cols.actionCol = some "update")).map
        fun r => (r, payloadAt cols ws r) := by
  intro rs
  induction rs with
  | nil => rfl
  | cons r rest ih =>
    rw [collectFrom]
    by_cases hu : cellGet ws r cols.actionCol = some "update"
    · rw [if_pos hu]
      simp only [List.filter_cons]
      rw [if_pos (by simpa using hu)]
      simp [ih]
    · rw [if_neg hu]
      simp only [List.filter_cons]
      rw [if_neg (by simpa using hu)]
      simpa using ih

theorem collectFrom_snd (cols : SheetCols) (ws : Ws) : ∀ rs : List Nat,
    (collectFrom cols ws rs).2 =
      rs.length -
        (rs.filter fun r => decide (cellGet ws r cols.actionCol = some "update")).length := by
  intro rs
  induction rs with
  | nil => rfl
  | cons r rest ih =>
    have hle := List.length_filter_le
      (fun r => decide (cellGet ws r cols.actionCol = some "update")) rest
    rw [collectFrom]
    by_cases hu : cellGet ws r cols.actionCol = some "update"
    · rw [if_pos hu]
      simp only [List.filter_cons]
      rw [if_pos (by simpa using hu)]
      simp only [List.length_cons]
      rw [ih]
      omega
    · rw [if_neg hu]
      simp only [List.filter_cons]
      rw [if_neg (by simpa using hu)]
      simp only [List.length_cons]
      rw [ih]
      omega

theorem updateRowIdxs_bounds (cols : SheetCols) (ws : Ws) :
    ∀ x ∈ updateRowIdxs cols ws, 2 ≤ x ∧ x ≤ ws.length := by
  intro x hx
  have hx' : x ∈ dataRowIdxs ws := List.mem_of_mem_filter hx
  unfold dataRowIdxs at hx'
  rcases List.mem_range'.mp hx' with ⟨h1, h2⟩
  constructor
  · omega
  · omega

theorem updateRowIdxs_nodup (cols : SheetCols) (ws : Ws) :
    (updateRowIdxs cols ws).Nodup := by
  apply List.Nodup.filter
  unfold dataRowIdxs
  exact List.nodup_range' _ _

theorem collectAttributes_fst (cols : SheetCols) (ws : Ws) :
    (collectAttributes cols ws).1 =
      (updateRowIdxs cols ws).map fun r => (r, payloadAt cols ws r) := by
  rw [collectAttributes, collectFrom_fst]
  rfl

theorem collectAttributes_snd (cols : SheetCols) (ws : Ws) :
    (collectAttributes cols ws).2 =
      (dataRowIdxs ws).length - (updateRowIdxs cols ws).length := by
  rw [collectAttributes, collectFrom_snd]
  rfl

theorem sync_eq (cols : SheetCols) (clientRes : Except String Unit) (ws : Ws) (st : MStats) :
    sync cols clientRes ws st =
      if updateRowIdxs cols ws = [] then
        ⟨ws, statsSkippedN st ((dataRowIdxs ws).length - (updateRowIdxs cols ws).length), []⟩
      else
        updateAttributes clientRes
          ((updateRowIdxs cols ws).map fun r => (r, payloadAt cols ws r)) ws
          (statsSkippedN st ((dataRowIdxs ws).length - (updateRowIdxs cols ws).length)) := by
  simp only [sync]
  rw [collectAttributes_fst, collectAttributes_snd]
  by_cases hne : updateRowIdxs cols ws = []
  · rw [hne]
    simp
  · rw [if_neg hne]
    have hemp : ((updateRowIdxs cols ws).map fun r => (r, payloadAt cols ws r)).isEmpty
        = false := by
      rw [List.isEmpty_eq_false_iff_exists_mem]
      rcases List.exists_mem_of_ne_nil _ hne with ⟨x, hx⟩
      exact ⟨(x, payloadAt cols ws x), List.mem_map_of_mem _ hx⟩
    rw [hemp]
    simp

theorem map_fst_map_pair {α β : Type} (l : List α) (f : α → β) :
    ((l.map fun r => (r, f r)).map (·.1)) = l := by
  induction l with
  | nil => rfl
  | cons a t ih => simp only [List.map_cons, ih]

/-- Claim C1: on a successful remote call, exactly the rows whose action
cell reads 'update' are collected (with their key/value/comment payloads,
in row order) and submitted in one single bulk_update call; exactly those
rows get the '-' marker in column 3; every other row is left untouched and
is counted in the skipped counter; no error entry is recorded. -/
theorem syncUpdate_claim (cols : SheetCols) (ws : Ws) (st : MStats) :
    ((sync cols (.ok ()) ws st).calls =
      if updateRowIdxs cols ws = [] then []
      else [(updateRowIdxs cols ws).map (payloadAt cols ws)]) ∧
    ((collectAttributes cols ws).1 =
      (updateRowIdxs cols ws).map fun r => (r, payloadAt cols ws r)) ∧
    (∀ r ∈ updateRowIdxs cols ws,
      cellGet (sync cols (.ok ()) ws st).ws r 3 = some "-") ∧
    (∀ r, 1 ≤ r → r ∉ updateRowIdxs cols ws →
      rowGet (sync cols (.ok ()) ws st).ws r = rowGet ws r) ∧
    ((sync cols (.ok ()) ws st).stats.skipped =
      st.skipped + ((dataRowIdxs ws).length - (updateRowIdxs cols ws).length)) ∧
    (sync cols (.ok ()) ws st).stats.errors = st.errors := by
  have hbounds := updateRowIdxs_bounds cols ws
  have hbounds' : ∀ x ∈ updateRowIdxs cols ws, 1 ≤ x ∧ x ≤ ws.length := by
    intro x hx
    have := hbounds x hx
    omega
  rw [sync_eq]
  by_cases hne : updateRowIdxs cols ws = []
  · rw [if_pos hne, hne]
    refine ⟨rfl, ?_, ?_, ?_, rfl, rfl⟩
    · rw [collectAttributes_fst, hne]
    · intro r hr
      simp at hr
    · intro r _ _
      rfl
  · rw [if_neg hne]
    rw [updateAttributes]
    refine ⟨?_, collectAttributes_fst cols ws, ?_, ?_, ?_, ?_⟩
    · rw [if_neg hne]
      simp
    · intro r hr
      show cellGet (markRows ws
        (((updateRowIdxs cols ws).map fun r => (r, payloadAt cols ws r)).map (·.1))) r 3 =
        some "-"
      have hmap : ((updateRowIdxs cols ws).map fun r => (r, payloadAt cols ws r)).map (·.1) =
          updateRowIdxs cols ws := map_fst_map_pair _ _
      rw [hmap]
      exact cellGet_markRows_mem _ ws r hbounds' (updateRowIdxs_nodup cols ws) hr
    · intro r hr hnm
      show rowGet (markRows ws
        (((updateRowIdxs cols ws).map fun r => (r, payloadAt cols ws r)).map (·.1))) r =
        rowGet ws r
      have hmap : ((updateRowIdxs cols ws).map fun r => (r, payloadAt cols ws r)).map (·.1) =
          updateRowIdxs cols ws := map_fst_map_pair _ _
      rw [hmap]
      exact rowGet_markRows_notMem _ ws r hbounds' hr hnm
    · rfl
    · rfl

/-- Witness for C1 on a concrete workbook: rows 2 and 4 carry the update
action, row 3 does not; row 2 gets the marker, row 3 is unchanged, one call
carries both payloads and the skipped counter grows by one. -/
theorem syncUpdate_claim_witness :
    (sync ⟨1, 2, 3, 4⟩ (.ok ())
        [[some "key"], [some "k1", some "v1", none, some "update"],
         [some "k2", none, none, none], [some "k3", some "v3", none, some "update"]]
        ⟨0, 0, []⟩).calls =
      [[⟨some "k1", some "v1", none⟩, ⟨some "k3", some "v3", none⟩]] ∧
    cellGet (sync ⟨1, 2, 3, 4⟩ (.ok ())
        [[some "key"], [some "k1", some "v1", none, some "update"],
         [some "k2", none, none, none], [some "k3", some "v3", none, some "update"]]
        ⟨0, 0, []⟩).ws 2 3 = some "-" ∧
    rowGet (sync ⟨1, 2, 3, 4⟩ (.ok ())
        [[some "key"], [some "k1", some "v1", none, some "update"],
         [some "k2", none, none, none], [some "k3", some "v3", none, some "update"]]
        ⟨0, 0, []⟩).ws 3 = [some "k2", none, none, none] := by
  have h := syncUpdate_claim ⟨1, 2, 3, 4⟩
    [[some "key"], [some "k1", some "v1", none, some "update"],
     [some "k2", none, none, none], [some "k3", some "v3", none, some "update"]]
    ⟨0, 0, []⟩
  refine ⟨h.1.trans (by decide), ?_, ?_⟩
  · exact h.2.2.1 2 (by decide)
  · exact (h.2.2.2.1 3 (by decide) (by decide)).trans (by decide)

/-- Counterexample to C4 as stated: on a failing bulk update over attempted
sheet rows 2 and 3, the recorded error entry carries the range
range(1, len(attributes) + 1) = [1, 2], which does not cover the attempted
row-index range - sheet row 3 is attempted but absent from the recorded
range (which even names the header row 1). -/
theorem syncErrorRange_counterexample :
    updateRowIdxs ⟨1, 2, 3, 4⟩ c4ws = [2, 3] ∧
    (sync ⟨1, 2, 3, 4⟩ (.error "boom") c4ws ⟨0, 0, []⟩).stats.errors =
      [("Error while updating attributes: boom", [1, 2])] ∧
    (3 : Nat) ∈ updateRowIdxs ⟨1, 2, 3, 4⟩ c4ws ∧
    (3 : Nat) ∉ [1, 2] := by
  refine ⟨by decide, by decide, by decide, by decide⟩

/-- Claim C4 as amended: when the remote bulk update raises a client error,
the synchronizer catches it, the run completes normally, and exactly one
batch-level error entry is recorded whose row range is
range(1, len(attributes) + 1), i.e. the consecutive integers 1..count of
attempted rows - not the attempted sheet row indices; the worksheet and the
updated counter are untouched. -/
theorem syncErrorRange_amended (cols : SheetCols) (ws : Ws) (st : MStats) (e : String)
    (hne : updateRowIdxs cols ws ≠ []) :
    (sync cols (.error e) ws st).stats.errors =
      st.errors ++ [("Error while updating attributes: " ++ e,
        List.range' 1 (updateRowIdxs cols ws).length)] ∧
    (sync cols (.error e) ws st).ws = ws ∧
    (sync cols (.error e) ws st).stats.updated = st.updated := by
  rw [sync_eq, if_neg hne, updateAttributes]
  refine ⟨?_, rfl, rfl⟩
  show (statsError (statsSkippedN st _) _ _).errors = _
  simp [statsError, statsSkippedN, List.length_map]

/-- Witness for the amended C4 at the concrete failing run. -/
theorem syncErrorRange_amended_witness :
    (sync ⟨1, 2, 3, 4⟩ (.error "boom") c4ws ⟨0, 0, []⟩).stats.errors =
      [("Error while updating attributes: boom", List.range' 1 2)] :=
  (syncErrorRange_amended ⟨1, 2, 3, 4⟩ c4ws ⟨0, 0, []⟩ "boom" (by decide)).1.trans
    (by decide)

/-- Claim C5: the bulk update is atomic from the synchronizer's view. On a
client error no marker is written (the worksheet is returned unchanged),
the updated counter is untouched and exactly one error entry is appended;
on success every attempted row is marked, the updated counter grows by the
number of attempted rows and no error entry is recorded. -/
theorem syncAtomic_claim (cols : SheetCols) (ws : Ws) (st : MStats) (e : String)
    (hne : updateRowIdxs cols ws ≠ []) :
    ((sync cols (.error e) ws st).ws = ws ∧
     (sync cols (.error e) ws st).stats.updated = st.updated ∧
     (sync cols (.error e) ws st).stats.errors =
       st.errors ++ [("Error while updating attributes: " ++ e,
         List.range' 1 (updateRowIdxs cols ws).length)]) ∧
    ((∀ r ∈ updateRowIdxs cols ws,
       cellGet (sync cols (.ok ()) ws st).ws r 3 = some "-") ∧
     (sync cols (.ok ()) ws st).stats.updated =
       st.updated + (updateRowIdxs cols ws).length ∧
     (sync cols (.ok ()) ws st).stats.errors = st.errors) := by
  have hbounds := updateRowIdxs_bounds cols ws
  have hbounds' : ∀ x ∈ updateRowIdxs cols ws, 1 ≤ x ∧ x ≤ ws.length := by
    intro x hx
    have := hbounds x hx
    omega
  constructor
  · rw [sync_eq, if_neg hne, updateAttributes]
    refine ⟨rfl, rfl, ?_⟩
    show (statsError (statsSkippedN st _) _ _).errors = _
    simp [statsError, statsSkippedN, List.length_map]
  · rw [sync_eq, if_neg hne, updateAttributes]
    refine ⟨?_, ?_, rfl⟩
    · intro r hr
      show cellGet (markRows ws
        (((updateRowIdxs cols ws).map fun r => (r, payloadAt cols ws r)).map (·.1))) r 3 =
        some "-"
      have hmap : ((updateRowIdxs cols ws).map fun r => (r, payloadAt cols ws r)).map (·.1) =
          updateRowIdxs cols ws := map_fst_map_pair _ _
      rw [hmap]
      exact cellGet_markRows_mem _ ws r hbounds' (updateRowIdxs_nodup cols ws) hr
    · show (statsUpdated (statsSkippedN st _) _).updated = _
      simp [statsUpdated, statsSkippedN, List.length_map]

/-- Witness for C5 at a concrete failing and succeeding run over one
update-flagged row. -/
theorem syncAtomic_claim_witness :
    ((sync ⟨1, 2, 3, 4⟩ (.error "down")
        [[some "key"], [some "k1", some "v1", none, some "update"]] ⟨0, 0, []⟩).ws =
      [[some "key"], [some "k1", some "v1", none, some "update"]]) ∧
    cellGet (sync ⟨1, 2, 3, 4⟩ (.ok ())
        [[some "key"], [some "k1", some "v1", none, some "update"]] ⟨0, 0, []⟩).ws 2 3 =
      some "-" := by
  have h := syncAtomic_claim ⟨1, 2, 3, 4⟩
    [[some "key"], [some "k1", some "v1", none, some "update"]] ⟨0, 0, []⟩ "down"
    (by decide)
  exact ⟨h.1.1, h.2.1 2 (by decide)⟩

/-! ## Claims C3 and C9: the manifest check -/

theorem deprecatedWarnings_msgs (m : PyModule) :
    ∀ it ∈ deprecatedWarnings m, ∃ d, it.msg = Msg.deprecatedResponse d := by
  intro it hit
  unfold deprecatedWarnings at hit
  rcases List.mem_map.mp hit with ⟨d, _, rfl⟩
  exact ⟨d, rfl⟩

theorem loopTypes_items (env : String → Except String PyModule)
    (entries : List (String × String)) (f : String) :
    ∀ (tys : List String) (msgs : List ValidationItem) (exts : ExtMap),
      (∀ m, loopTypes env entries f tys msgs exts = .ok (.inl m) →
        ∃ suf, m = msgs ++ suf ∧ ∀ it ∈ suf,
          (∃ v e2, it.msg = Msg.cannotLoadClass v e2) ∨
            ∃ d, it.msg = Msg.deprecatedResponse d) ∧
      (∀ m ex2, loopTypes env entries f tys msgs exts = .ok (.inr (m, ex2)) →
        ∃ suf, m = msgs ++ suf ∧ ∀ it ∈ suf,
          (∃ v e2, it.msg = Msg.cannotLoadClass v e2) ∨
            ∃ d, it.msg = Msg.deprecatedResponse d) := by
  intro tys
  induction tys with
  | nil =>
    intro msgs exts
    constructor
    · intro m hm
      rw [loopTypes] at hm
      simp at hm
    · intro m ex2 hm
      rw [loopTypes] at hm
      simp at hm
      refine ⟨[], by simp [hm.1], ?_⟩
      intro it hit
      simp at hit
  | cons ty rest ih =>
    intro msgs exts
    have step : ∀ res, loopTypes env entries f (ty :: rest) msgs exts = res →
        (∀ m, res = .ok (.inl m) →
          ∃ suf, m = msgs ++ suf ∧ ∀ it ∈ suf,
            (∃ v e2, it.msg = Msg.cannotLoadClass v e2) ∨
              ∃ d, it.msg = Msg.deprecatedResponse d) ∧
        (∀ m ex2, res = .ok (.inr (m, ex2)) →
          ∃ suf, m = msgs ++ suf ∧ ∀ it ∈ suf,
            (∃ v e2, it.msg = Msg.cannotLoadClass v e2) ∨
              ∃ d, it.msg = Msg.deprecatedResponse d) := by
      intro res hm
      cases hl : lookupStr entries ty with
      | none =>
        simp only [loopTypes, hl] at hm
        rw [← hm]
        exact ih msgs exts
      | some v =>
        simp only [loopTypes, hl] at hm
        cases hsp : rsplitColonStr v with
        | none =>
          simp only [hsp] at hm
          rw [← hm]
          constructor
          · intro m h
            simp at h
          · intro m ex2 h
            simp at h
        | some pc =>
          simp only [hsp] at hm
          cases henv : env pc.1 with
          | error err =>
            simp only [henv] at hm
            rw [← hm]
            constructor
            · intro m h
              simp only [Except.ok.injEq, Sum.inl.injEq] at h
              refine ⟨[⟨.error, .cannotLoadClass v err, .file f⟩], by simp [h], ?_⟩
              intro it hit
              rcases List.mem_singleton.mp hit with rfl
              exact Or.inl ⟨v, err, rfl⟩
            · intro m ex2 h
              simp at h
          | ok mod =>
            simp only [henv] at hm
            by_cases hcls : pc.2 ∈ mod.classes
            · rw [if_pos hcls] at hm
              rw [← hm]
              constructor
              · intro m h
                rcases ((ih (msgs ++ deprecatedWarnings mod)
                    (exts ++ [(ty, (pc.1, pc.2))])).1 m h) with ⟨suf, hsuf, hall⟩
                refine ⟨deprecatedWarnings mod ++ suf, by rw [hsuf, List.append_assoc], ?_⟩
                intro it hit
                rcases List.mem_append.mp hit with hit | hit
                · exact Or.inr (deprecatedWarnings_msgs mod it hit)
                · exact hall it hit
              · intro m ex2 h
                rcases ((ih (msgs ++ deprecatedWarnings mod)
                    (exts ++ [(ty, (pc.1, pc.2))])).2 m ex2 h) with ⟨suf, hsuf, hall⟩
                refine ⟨deprecatedWarnings mod ++ suf, by rw [hsuf, List.append_assoc], ?_⟩
                intro it hit
                rcases List.mem_append.mp hit with hit | hit
                · exact Or.inr (deprecatedWarnings_msgs mod it hit)
                · exact hall it hit
            · rw [if_neg hcls] at hm
              rw [← hm]
              constructor
              · intro m h
                simp at h
              · intro m ex2 h
                simp at h
    constructor
    · intro m hm
      exact (step _ rfl).1 m hm
    · intro m ex2 hm
      exact (step _ rfl).2 m ex2 hm

theorem loopTypes_clean (env : String → Except String PyModule)
    (entries : List (String × String)) (f : String) :
    ∀ (tys : List String) (msgs : List ValidationItem) (exts : ExtMap),
      (∀ ty ∈ tys, cleanFor env entries ty = true) →
      ∃ suf pre, loopTypes env entries f tys msgs exts = .ok (.inr (msgs ++ suf, exts ++ pre)) ∧
        (pre = [] ↔ ∀ ty ∈ tys, lookupStr entries ty = none) := by
  intro tys
  induction tys with
  | nil =>
    intro msgs exts _
    exact ⟨[], [], by simp [loopTypes], by simp⟩
  | cons ty rest ih =>
    intro msgs exts hclean
    cases hl : lookupStr entries ty with
    | none =>
      rcases ih msgs exts (fun t ht => hclean t (by simp [ht])) with ⟨suf, pre, heq, hiff⟩
      refine ⟨suf, pre, ?_, ?_⟩
      · have hstep : loopTypes env entries f (ty :: rest) msgs exts =
            loopTypes env entries f rest msgs exts := by
          simp only [loopTypes, hl]
        rw [hstep]
        exact heq
      · constructor
        · intro hp
          intro t ht
          rcases List.mem_cons.mp ht with rfl | ht
          · exact hl
          · exact (hiff.mp hp) t ht
        · intro hall
          exact hiff.mpr (fun t ht => hall t (by simp [ht]))
    | some v =>
      have hcl := hclean ty (by simp)
      simp only [cleanFor, hl] at hcl
      cases hsp : rsplitColonStr v with
      | none =>
        simp only [hsp] at hcl
        exact absurd hcl (by simp)
      | some pc =>
        simp only [hsp] at hcl
        cases henv : env pc.1 with
        | error err =>
          simp only [henv] at hcl
          exact absurd hcl (by simp)
        | ok mod =>
          simp only [henv] at hcl
          have hcls : pc.2 ∈ mod.classes := by
            simpa using hcl
          rcases ih (msgs ++ deprecatedWarnings mod) (exts ++ [(ty, (pc.1, pc.2))])
            (fun t ht => hclean t (by simp [ht])) with ⟨suf, pre, heq, _⟩
          refine ⟨deprecatedWarnings mod ++ suf, (ty, (pc.1, pc.2)) :: pre, ?_, ?_⟩
          · have hstep : loopTypes env entries f (ty :: rest) msgs exts =
                loopTypes env entries f rest (msgs ++ deprecatedWarnings mod)
                  (exts ++ [(ty, (pc.1, pc.2))]) := by
              simp only [loopTypes, hl, hsp, henv, if_pos hcls]
            rw [hstep, heq, List.append_assoc]
            have hassoc : exts ++ [(ty, (pc.1, pc.2))] ++ pre =
                exts ++ ((ty, (pc.1, pc.2)) :: pre) := by
              rw [List.append_assoc]
              rfl
            rw [hassoc]
          · constructor
            · intro hp
              exact absurd hp (by simp)
            · intro hall
              have := hall ty (by simp)
              rw [this] at hl
              exact absurd hl (by simp)

theorem validate_pyproject_items (env : String → Except String PyModule) (dir : String)
    (data : PyprojectData) :
    ∀ vr, validate_pyproject_toml env dir (.ok data) = .ok vr →
      ∃ suf, vr.items =
        (if "connect-extension-runner" ∈ data.dependencies then
          [⟨.warning, .runnerWarning, .file (dir ++ "/pyproject.toml")⟩]
        else if "connect-eaas-core" ∉ data.dependencies then
          [⟨.error, .missingCoreDep, .file (dir ++ "/pyproject.toml")⟩]
        else []) ++ suf ∧
        ∀ it ∈ suf, it.msg ≠ Msg.missingCoreDep := by
  intro vr hvr
  cases hdecl : data.extensionDecl with
  | none =>
    simp only [validate_pyproject_toml, hdecl, Except.ok.injEq] at hvr
    refine ⟨[⟨.error, .noExtensionDecl, .file (dir ++ "/pyproject.toml")⟩], ?_, ?_⟩
    · rw [← hvr]
    · intro it hit
      rcases List.mem_singleton.mp hit with rfl
      simp
  | some entries =>
    simp only [validate_pyproject_toml, hdecl] at hvr
    cases hloop : loopTypes env entries (dir ++ "/pyproject.toml") possible_extensions
      (if "connect-extension-runner" ∈ data.dependencies then
        [⟨.warning, .runnerWarning, .file (dir ++ "/pyproject.toml")⟩]
      else if "connect-eaas-core" ∉ data.dependencies then
        [⟨.error, .missingCoreDep, .file (dir ++ "/pyproject.toml")⟩]
      else []) [] with
    | error e =>
      simp only [hloop] at hvr
      simp at hvr
    | ok res =>
      simp only [hloop] at hvr
      cases res with
      | inl msgs =>
        simp only [Except.ok.injEq] at hvr
        rcases (loopTypes_items env entries _ possible_extensions _ []).1 msgs hloop
          with ⟨suf, hsuf, hall⟩
        refine ⟨suf, ?_, ?_⟩
        · rw [← hvr, hsuf]
        · intro it hit
          rcases hall it hit with ⟨v, e2, hmsg⟩ | ⟨d, hmsg⟩ <;> simp [hmsg]
      | inr p =>
        rcases p with ⟨m1, ex1⟩
        rcases (loopTypes_items env entries _ possible_extensions _ []).2 m1 ex1 hloop
          with ⟨suf, hsuf, hall⟩
        have hvr2 : (if ex1.isEmpty then
            Except.ok ({ items := m1 ++ [⟨.error, .invalidExtensionDecl,
                .file (dir ++ "/pyproject.toml")⟩], mustExit := true, context := none }
              : VResult ExtMap)
          else Except.ok ({ items := m1, mustExit := false, context := some ex1 }
              : VResult ExtMap)) = Except.ok vr := hvr
        by_cases hemp : ex1.isEmpty
        · rw [if_pos hemp] at hvr2
          simp only [Except.ok.injEq] at hvr2
          refine ⟨suf ++ [⟨.error, .invalidExtensionDecl, .file (dir ++ "/pyproject.toml")⟩],
            ?_, ?_⟩
          · rw [← hvr2]
            show m1 ++ [⟨.error, .invalidExtensionDecl, .file (dir ++ "/pyproject.toml")⟩] = _
            rw [hsuf, List.append_assoc]
          · intro it hit
            rcases List.mem_append.mp hit with hit | hit
            · rcases hall it hit with ⟨v, e2, hmsg⟩ | ⟨d, hmsg⟩ <;> simp [hmsg]
            · rcases List.mem_singleton.mp hit with rfl
              simp
        · rw [if_neg hemp] at hvr2
          simp only [Except.ok.injEq] at hvr2
          refine ⟨suf, ?_, ?_⟩
          · rw [← hvr2]
            show m1 = _
            rw [hsuf]
          · intro it hit
            rcases hall it hit with ⟨v, e2, hmsg⟩ | ⟨d, hmsg⟩ <;> simp [hmsg]

/-- Claim C9: when the dependency table holds the runner dependency, the
check appends the runner WARNING and never the absent-core-dependency ERROR
(the two branches are an if/elif, mutually exclusive, with no early
return), whatever else the manifest holds; and whenever the
extension-registration section is absent or not a mapping, the check
returns with the stop flag set. -/
theorem runnerAsymmetry_claim (env : String → Except String PyModule) (dir : String)
    (data : PyprojectData) :
    ("connect-extension-runner" ∈ data.dependencies →
      ∀ vr, validate_pyproject_toml env dir (.ok data) = .ok vr →
        ((⟨.warning, .runnerWarning, .file (dir ++ "/pyproject.toml")⟩ : ValidationItem)
            ∈ vr.items ∧
         ∀ it ∈ vr.items, it.msg ≠ Msg.missingCoreDep)) ∧
    (data.extensionDecl = none →
      resultMustExit (validate_pyproject_toml env dir (.ok data)) = some true) := by
  constructor
  · intro hrun vr hvr
    rcases validate_pyproject_items env dir data vr hvr with ⟨suf, hitems, hsuf⟩
    rw [if_pos hrun] at hitems
    constructor
    · rw [hitems]
      simp
    · intro it hit
      rw [hitems] at hit
      rcases List.mem_append.mp hit with hit | hit
      · rcases List.mem_singleton.mp hit with rfl
        simp
      · exact hsuf it hit
  · intro hdecl
    simp only [validate_pyproject_toml, hdecl]
    rfl

/-- Witness for C9: the runner WARNING is present, the core ERROR is not,
and the missing registration section sets the stop flag. -/
theorem runnerAsymmetry_claim_witness :
    ((⟨.warning, .runnerWarning, .file "d/pyproject.toml"⟩ : ValidationItem)
      ∈ resultItems (validate_pyproject_toml c9env "d" (.ok c9data))) ∧
    (∀ it ∈ resultItems (validate_pyproject_toml c9env "d" (.ok c9data)),
      it.msg ≠ Msg.missingCoreDep) ∧
    resultMustExit (validate_pyproject_toml c9env "d" (.ok c9data)) = some true := by
  have h := runnerAsymmetry_claim c9env "d" c9data
  have hv : validate_pyproject_toml c9env "d" (.ok c9data) =
      .ok ⟨[⟨.warning, .runnerWarning, .file "d/pyproject.toml"⟩,
        ⟨.error, .noExtensionDecl, .file "d/pyproject.toml"⟩], true, none⟩ := rfl
  have h1 := h.1 (by decide) _ hv
  refine ⟨?_, ?_, h.2 rfl⟩
  · show _ ∈ resultItems (validate_pyproject_toml c9env "d" (.ok c9data))
    rw [hv]
    exact h1.1
  · intro it hit
    rw [hv] at hit
    exact h1.2 it hit

/-- Counterexample to C3 as stated: a manifest whose dependency table lacks
the core dependency but holds the runner dependency produces zero ERRORs
about the missing dependency, not exactly one - the if/elif keeps the two
branches mutually exclusive. -/
theorem missingDepError_counterexample :
    "connect-eaas-core" ∉ c3data.dependencies ∧
    countMissingDep (resultItems (validate_pyproject_toml c3env "d" (.ok c3data))) = 0 := by
  refine ⟨by decide, by decide⟩

/-- Claim C3 as amended: for manifests whose dependency table lacks both
the core dependency and the runner dependency, every returning run emits
exactly one ERROR about the missing dependency; that ERROR alone never sets
the stop flag - when the registration section is a mapping whose declared
types all load cleanly and at least one recognized type is declared, the
check returns with the stop flag clear, while an absent (or non-mapping)
registration section always returns with the stop flag set. -/
theorem missingDepError_amended (env : String → Except String PyModule) (dir : String)
    (data : PyprojectData)
    (hrun : "connect-extension-runner" ∉ data.dependencies)
    (hcore : "connect-eaas-core" ∉ data.dependencies) :
    (∀ vr, validate_pyproject_toml env dir (.ok data) = .ok vr →
      countMissingDep vr.items = 1) ∧
    (data.extensionDecl = none →
      resultMustExit (validate_pyproject_toml env dir (.ok data)) = some true) ∧
    (∀ entries, data.extensionDecl = some entries → loadsCleanly env entries = true →
      hasDeclared entries = true →
      resultMustExit (validate_pyproject_toml env dir (.ok data)) = some false) := by
  refine ⟨?_, ?_, ?_⟩
  · intro vr hvr
    rcases validate_pyproject_items env dir data vr hvr with ⟨suf, hitems, hsuf⟩
    rw [if_neg hrun, if_pos hcore] at hitems
    rw [hitems]
    unfold countMissingDep
    rw [List.countP_append]
    have h1 : ([⟨.error, .missingCoreDep, .file (dir ++ "/pyproject.toml")⟩]
        : List ValidationItem).countP (fun it => decide (it.msg = Msg.missingCoreDep)) = 1 := by
      simp
    have h2 : suf.countP (fun it => decide (it.msg = Msg.missingCoreDep)) = 0 := by
      rw [List.countP_eq_zero]
      intro it hit
      simpa using hsuf it hit
    rw [h1, h2]
  · intro hdecl
    simp only [validate_pyproject_toml, hdecl]
    rfl
  · intro entries hdecl hclean hdecld
    rcases loopTypes_clean env entries (dir ++ "/pyproject.toml") possible_extensions
      (if "connect-extension-runner" ∈ data.dependencies then
        [⟨.warning, .runnerWarning, .file (dir ++ "/pyproject.toml")⟩]
      else if "connect-eaas-core" ∉ data.dependencies then
        [⟨.error, .missingCoreDep, .file (dir ++ "/pyproject.toml")⟩]
      else []) []
      (fun t ht => by
        rw [loadsCleanly] at hclean
        exact List.all_eq_true.mp hclean t ht) with ⟨suf, pre, heq, hiff⟩
    have hpre : pre ≠ [] := by
      intro hp
      rcases List.any_eq_true.mp (by rw [hasDeclared] at hdecld; exact hdecld)
        with ⟨t, ht, hsome⟩
      have hnone := (hiff.mp hp) t ht
      have hsome2 : (lookupStr entries t).isSome = true := hsome
      rw [hnone] at hsome2
      simp at hsome2
    simp only [validate_pyproject_toml, hdecl]
    rw [heq]
    have hpree : pre.isEmpty = false := by
      rw [List.isEmpty_eq_false_iff_exists_mem]
      rcases List.exists_mem_of_ne_nil _ hpre with ⟨x, hx⟩
      exact ⟨x, hx⟩
    simp only [List.nil_append, hpree, Bool.false_eq_true, if_false]
    rfl

/-- Witness for the amended C3: exactly one missing-dependency ERROR and a
clear stop flag on the concrete clean manifest, and the stop flag set when
the registration section is removed. -/
theorem missingDepError_amended_witness :
    countMissingDep (resultItems (validate_pyproject_toml c3env "d" (.ok c3cleanData))) = 1 ∧
    resultMustExit (validate_pyproject_toml c3env "d" (.ok c3cleanData)) = some false ∧
    resultMustExit (validate_pyproject_toml c3env "d" (.ok (⟨[], none⟩ : PyprojectData))) =
      some true := by
  have h := missingDepError_amended c3env "d" c3cleanData (by decide) (by decide)
  have h2 := missingDepError_amended c3env "d" (⟨[], none⟩ : PyprojectData)
    (by decide) (by decide)
  have hv : validate_pyproject_toml c3env "d" (.ok c3cleanData) =
      .ok ⟨[⟨.error, .missingCoreDep, .file "d/pyproject.toml"⟩], false,
        some [("extension", ("pkg", "MyExt"))]⟩ := rfl
  refine ⟨?_, h.2.2 _ rfl (by decide) (by decide), h2.2.1 rfl⟩
  have := h.1 _ hv
  show countMissingDep (resultItems (validate_pyproject_toml c3env "d" (.ok c3cleanData))) = 1
  rw [hv]
  exact this

/-! ## Claims C2 and C10: the web-app ui-tree walk -/

theorem isize_pos (t : UIItem) : 1 ≤ isize t := by
  cases t with
  | mk l u cs => simp [isize]

theorem isizeList_append (a b : List UIItem) :
    isizeList (a ++ b) = isizeList a + isizeList b := by
  induction a with
  | nil => simp [isizeList]
  | cons t ts ih => simp [isizeList, ih]; omega

theorem allItemsList_append (a b : List UIItem) :
    allItemsList (a ++ b) = allItemsList a ++ allItemsList b := by
  induction a with
  | nil => simp [allItemsList]
  | cons t ts ih => simp [allItemsList, ih]

theorem isize_eq (t : UIItem) : isize t = 1 + isizeList t.children := by
  cases t with
  | mk l u cs => simp [isize, UIItem.children]

theorem isizeList_pop_back (w : UIItem) (ws : List UIItem) (h : w :: ws ≠ []) :
    isizeList ((w :: ws).dropLast ++ ((w :: ws).getLast h).children) <
      isizeList (w :: ws) := by
  have hws := List.dropLast_append_getLast h
  have h1 : isizeList (w :: ws) =
      isizeList (w :: ws).dropLast + isize ((w :: ws).getLast h) := by
    conv_lhs => rw [← hws]
    rw [isizeList_append]; simp [isizeList]
  have h2 := isize_eq ((w :: ws).getLast h)
  rw [isizeList_append]
  omega

theorem allItems_eq (t : UIItem) : allItems t = t :: allItemsList t.children := by
  cases t with
  | mk l u cs => rfl

theorem mem_allItemsList_of_mem : ∀ (ws : List UIItem) (t : UIItem), t ∈ ws →
    t ∈ allItemsList ws := by
  intro ws
  induction ws with
  | nil => intro t ht; simp at ht
  | cons w rest ih =>
    intro t ht
    rw [show allItemsList (w :: rest) = allItems w ++ allItemsList rest from rfl]
    rcases List.mem_cons.mp ht with rfl | ht
    · exact List.mem_append.mpr (Or.inl (by rw [allItems_eq]; exact List.mem_cons_self _ _))
    · exact List.mem_append.mpr (Or.inr (ih t ht))

theorem allItemsList_split_back (w : UIItem) (rest : List UIItem) :
    allItemsList (w :: rest) =
      allItemsList (w :: rest).dropLast ++
        ((w :: rest).getLast (by simp) :: allItemsList ((w :: rest).getLast (by simp)).children) := by
  conv_lhs => rw [← List.dropLast_append_getLast (l := w :: rest) (by simp)]
  rw [allItemsList_append]
  congr 1
  rw [show allItemsList [(w :: rest).getLast (by simp)] =
    allItems ((w :: rest).getLast (by simp)) ++ allItemsList [] from rfl]
  rw [allItems_eq]
  simp [allItemsList]

theorem missUrl_eq_some (ex : String → Bool) (t : UIItem) (u : String) :
    missUrl ex t = some u ↔ t.url = some u ∧ ex u = false := by
  cases hu : t.url with
  | none => simp [missUrl, hu]
  | some u2 =>
    by_cases hex : ex u2
    · simp only [missUrl, hu, if_pos hex]
      constructor
      · intro h
        exact absurd h (by simp)
      · rintro ⟨h1, h2⟩
        injection h1 with h1
        subst h1
        rw [hex] at h2
        exact absurd h2 (by simp)
    · simp only [missUrl, hu, if_neg hex]
      constructor
      · intro h
        injection h with h
        subst h
        exact ⟨rfl, by simpa using hex⟩
      · rintro ⟨h1, _⟩
        injection h1 with h1
        rw [h1]

theorem walkStackGo_ok (ex : String → Bool) :
    ∀ (fuel : Nat) (ws : List UIItem), isizeList ws ≤ fuel →
      (∀ t ∈ allItemsList ws, t.url ≠ none) →
      ∃ l, walkStackGo ex fuel ws = .ok l ∧ l.Perm (missedOfList ex ws) := by
  intro fuel
  induction fuel with
  | zero =>
    intro ws hlen _
    have hws : ws = [] := by
      cases ws with
      | nil => rfl
      | cons w rest =>
        have := isize_pos w
        rw [show isizeList (w :: rest) = isize w + isizeList rest from rfl] at hlen
        omega
    subst hws
    exact ⟨[], rfl, by simp [missedOfList, allItemsList]⟩
  | succ N ih =>
    intro ws hlen hurl
    cases ws with
    | nil => exact ⟨[], rfl, by simp [missedOfList, allItemsList]⟩
    | cons w rest =>
      have htmem : (w :: rest).getLast (by simp) ∈ allItemsList (w :: rest) :=
        mem_allItemsList_of_mem _ _ (List.getLast_mem (by simp))
      cases hu : ((w :: rest).getLast (by simp)).url with
      | none => exact absurd hu (hurl _ htmem)
      | some u =>
        have hsz : isizeList ((w :: rest).dropLast ++
            ((w :: rest).getLast (by simp)).children) ≤ N := by
          have := isizeList_pop_back w rest (by simp)
          omega
        have hsplit := allItemsList_split_back w rest
        have hurl2 : ∀ x ∈ allItemsList ((w :: rest).dropLast ++
            ((w :: rest).getLast (by simp)).children), x.url ≠ none := by
          intro x hx
          apply hurl
          rw [hsplit]
          rw [allItemsList_append] at hx
          rcases List.mem_append.mp hx with hx | hx
          · exact List.mem_append.mpr (Or.inl hx)
          · exact List.mem_append.mpr (Or.inr (List.mem_cons_of_mem _ hx))
        rcases ih _ hsz hurl2 with ⟨l, hok, hperm⟩
        have hgoal : walkStackGo ex (N + 1) (w :: rest) =
            match ((w :: rest).getLast (by simp)).url with
            | none => .error ((w :: rest).getLast (by simp))
            | some u =>
              match walkStackGo ex N ((w :: rest).dropLast ++
                  ((w :: rest).getLast (by simp)).children) with
              | .error i => .error i
              | .ok l => .ok (if ex u then l else u :: l) := rfl
        refine ⟨if ex u then l else u :: l, ?_, ?_⟩
        · rw [hgoal]
          simp only [hu, hok]
        · have hmissrec : missedOfList ex ((w :: rest).dropLast ++
              ((w :: rest).getLast (by simp)).children) =
              missedOfList ex (w :: rest).dropLast ++
                missedOfList ex ((w :: rest).getLast (by simp)).children := by
            unfold missedOfList
            rw [allItemsList_append, List.filterMap_append]
          by_cases hex : ex u
          · have hmu : missUrl ex ((w :: rest).getLast (by simp)) = none := by
              simp [missUrl, hu, hex]
            have hmiss : missedOfList ex (w :: rest) =
                missedOfList ex (w :: rest).dropLast ++
                  missedOfList ex ((w :: rest).getLast (by simp)).children := by
              unfold missedOfList
              rw [hsplit, List.filterMap_append, List.filterMap_cons_none hmu]
            rw [if_pos hex, hmiss, ← hmissrec]
            exact hperm
          · have hmu : missUrl ex ((w :: rest).getLast (by simp)) = some u := by
              simp [missUrl, hu, hex]
            have hmiss : missedOfList ex (w :: rest) =
                missedOfList ex (w :: rest).dropLast ++
                  (u :: missedOfList ex ((w :: rest).getLast (by simp)).children) := by
              unfold missedOfList
              rw [hsplit, List.filterMap_append, List.filterMap_cons_some hmu]
            rw [if_neg hex, hmiss]
            have h1 : (u :: l).Perm (u :: (missedOfList ex (w :: rest).dropLast ++
                missedOfList ex ((w :: rest).getLast (by simp)).children)) :=
              List.Perm.cons u (hperm.trans (by rw [hmissrec]))
            exact h1.trans List.perm_middle.symm

theorem walkQueueGo_ok (ex : String → Bool) :
    ∀ (fuel : Nat) (ws : List UIItem), isizeList ws ≤ fuel →
      (∀ t ∈ allItemsList ws, t.url ≠ none) →
      ∃ l, walkQueueGo ex fuel ws = .ok l ∧ l.Perm (missedOfList ex ws) := by
  intro fuel
  induction fuel with
  | zero =>
    intro ws hlen _
    have hws : ws = [] := by
      cases ws with
      | nil => rfl
      | cons w rest =>
        have := isize_pos w
        rw [show isizeList (w :: rest) = isize w + isizeList rest from rfl] at hlen
        omega
    subst hws
    exact ⟨[], rfl, by simp [missedOfList, allItemsList]⟩
  | succ N ih =>
    intro ws hlen hurl
    cases ws with
    | nil => exact ⟨[], rfl, by simp [missedOfList, allItemsList]⟩
    | cons t rest =>
      have htmem : t ∈ allItemsList (t :: rest) :=
        mem_allItemsList_of_mem _ _ (by simp)
      cases hu : t.url with
      | none => exact absurd hu (hurl _ htmem)
      | some u =>
        have hsz : isizeList (rest ++ t.children) ≤ N := by
          rw [isizeList_append]
          have h2 := isize_eq t
          rw [show isizeList (t :: rest) = isize t + isizeList rest from rfl] at hlen
          omega
        have hsplit : allItemsList (t :: rest) =
            (t :: allItemsList t.children) ++ allItemsList rest := by
          rw [show allItemsList (t :: rest) = allItems t ++ allItemsList rest from rfl,
            allItems_eq]
        have hurl2 : ∀ x ∈ allItemsList (rest ++ t.children), x.url ≠ none := by
          intro x hx
          apply hurl
          rw [hsplit]
          rw [allItemsList_append] at hx
          rcases List.mem_append.mp hx with hx | hx
          · exact List.mem_append.mpr (Or.inr hx)
          · exact List.mem_append.mpr (Or.inl (List.mem_cons_of_mem _ hx))
        rcases ih _ hsz hurl2 with ⟨l, hok, hperm⟩
        have hgoal : walkQueueGo ex (N + 1) (t :: rest) =
            match t.url with
            | none => .error t
            | some u =>
              match walkQueueGo ex N (rest ++ t.children) with
              | .error i => .error i
              | .ok l => .ok (if ex u then l else u :: l) := rfl
        have hmissrec : missedOfList ex (rest ++ t.children) =
            missedOfList ex rest ++ missedOfList ex t.children := by
          unfold missedOfList
          rw [allItemsList_append, List.filterMap_append]
        refine ⟨if ex u then l else u :: l, ?_, ?_⟩
        · rw [hgoal]
          simp only [hu, hok]
        · by_cases hex : ex u
          · have hmu : missUrl ex t = none := by
              simp [missUrl, hu, hex]
            have hmiss : missedOfList ex (t :: rest) =
                missedOfList ex t.children ++ missedOfList ex rest := by
              unfold missedOfList
              rw [hsplit, List.filterMap_append, List.filterMap_cons_none hmu]
            rw [if_pos hex, hmiss]
            exact hperm.trans (by rw [hmissrec]; exact List.perm_append_comm)
          · have hmu : missUrl ex t = some u := by
              simp [missUrl, hu, hex]
            have hmiss : missedOfList ex (t :: rest) =
                u :: (missedOfList ex t.children ++ missedOfList ex rest) := by
              unfold missedOfList
              rw [hsplit, List.filterMap_append, List.filterMap_cons_some hmu]
              rfl
            rw [if_neg hex, hmiss]
            exact List.Perm.cons u (hperm.trans (by rw [hmissrec]; exact List.perm_append_comm))

theorem walkStackGo_err (ex : String → Bool) :
    ∀ (fuel : Nat) (ws : List UIItem), isizeList ws ≤ fuel →
      (∃ t ∈ allItemsList ws, t.url = none) →
      ∃ t, walkStackGo ex fuel ws = .error t ∧ t.url = none ∧ t ∈ allItemsList ws := by
  intro fuel
  induction fuel with
  | zero =>
    intro ws hlen hbad
    have hws : ws = [] := by
      cases ws with
      | nil => rfl
      | cons w rest =>
        have := isize_pos w
        rw [show isizeList (w :: rest) = isize w + isizeList rest from rfl] at hlen
        omega
    subst hws
    rcases hbad with ⟨t, ht, _⟩
    simp [allItemsList] at ht
  | succ N ih =>
    intro ws hlen hbad
    cases ws with
    | nil =>
      rcases hbad with ⟨t, ht, _⟩
      simp [allItemsList] at ht
    | cons w rest =>
      have hgoal : walkStackGo ex (N + 1) (w :: rest) =
          match ((w :: rest).getLast (by simp)).url with
          | none => .error ((w :: rest).getLast (by simp))
          | some u =>
            match walkStackGo ex N ((w :: rest).dropLast ++
                ((w :: rest).getLast (by simp)).children) with
            | .error i => .error i
            | .ok l => .ok (if ex u then l else u :: l) := rfl
      have hsplit := allItemsList_split_back w rest
      cases hu : ((w :: rest).getLast (by simp)).url with
      | none =>
        refine ⟨(w :: rest).getLast (by simp), ?_, hu, ?_⟩
        · rw [hgoal]
          simp only [hu]
        · exact mem_allItemsList_of_mem _ _ (List.getLast_mem (by simp))
      | some u =>
        have hsz : isizeList ((w :: rest).dropLast ++
            ((w :: rest).getLast (by simp)).children) ≤ N := by
          have := isizeList_pop_back w rest (by simp)
          omega
        have hbad2 : ∃ t ∈ allItemsList ((w :: rest).dropLast ++
            ((w :: rest).getLast (by simp)).children), t.url = none := by
          rcases hbad with ⟨t, ht, hturl⟩
          rw [hsplit] at ht
          rcases List.mem_append.mp ht with ht | ht
          · exact ⟨t, by rw [allItemsList_append]; exact List.mem_append.mpr (Or.inl ht), hturl⟩
          · rcases List.mem_cons.mp ht with rfl | ht
            · rw [hu] at hturl
              exact absurd hturl (by simp)
            · exact ⟨t, by rw [allItemsList_append]; exact List.mem_append.mpr (Or.inr ht), hturl⟩
        rcases ih _ hsz hbad2 with ⟨t2, herr, hurl2, hmem2⟩
        refine ⟨t2, ?_, hurl2, ?_⟩
        · rw [hgoal]
          simp only [hu, herr]
        · rw [hsplit]
          rw [allItemsList_append] at hmem2
          rcases List.mem_append.mp hmem2 with hx | hx
          · exact List.mem_append.mpr (Or.inl hx)
          · exact List.mem_append.mpr (Or.inr (List.mem_cons_of_mem _ hx))

/-- Claim C2: over a ui descriptor tree in which every item carries a url,
the worklist walk visits every item - whether the deque is popped as a
stack (the source's deque.pop()) or as a queue (popleft) - and collects
exactly the urls whose referenced file is missing: the two traversals
return the same set of missed files, a url is collected precisely when some
item of the tree references it and its file does not exist, and the check
reports all of them in one single ERROR diagnostic (with the stop flag)
exactly when the collection is non-empty. -/
theorem webappTraversal_claim (p : WebappInput) (entries : List (String × UIItem))
    (hw : p.hasWebapp = true) (hwr : p.wrapped = true) (hr : p.hasRouter = true)
    (hui : p.ui = some entries)
    (hurls : ∀ t ∈ allItemsList (entries.map (·.2)), t.url ≠ none) :
    ∃ lb lf,
      walkStack (urlExists p) (entries.map (·.2)) = .ok lb ∧
      walkQueue (urlExists p) (entries.map (·.2)) = .ok lf ∧
      (∀ u, u ∈ lb ↔ u ∈ lf) ∧
      (∀ u, u ∈ lb ↔ ∃ t ∈ allItemsList (entries.map (·.2)),
        t.url = some u ∧ urlExists p u = false) ∧
      (lb = [] → validate_webapp_extension p = ⟨[], false, some ()⟩) ∧
      (lb ≠ [] → validate_webapp_extension p =
        ⟨[⟨.error, .missingStaticFiles lb, .file p.classFile⟩], true, none⟩) := by
  rcases walkStackGo_ok (urlExists p) (isizeList (entries.map (·.2))) (entries.map (·.2))
    le_rfl hurls with ⟨lb, hb, hbperm⟩
  rcases walkQueueGo_ok (urlExists p) (isizeList (entries.map (·.2))) (entries.map (·.2))
    le_rfl hurls with ⟨lf, hf, hfperm⟩
  have hbs : walkStack (urlExists p) (entries.map (·.2)) = .ok lb := hb
  have hfs : walkQueue (urlExists p) (entries.map (·.2)) = .ok lf := hf
  have hval : validate_webapp_extension p =
      match walkStack (urlExists p) (entries.map (·.2)) with
      | .error t => ⟨[⟨.error, .noUrlUIItem t.label, .file p.classFile⟩], true, none⟩
      | .ok missed =>
        if missed.isEmpty then ⟨[], false, some ()⟩
        else ⟨[⟨.error, .missingStaticFiles missed, .file p.classFile⟩], true, none⟩ := by
    rw [validate_webapp_extension, hw, hwr, hr, hui]
    simp
  refine ⟨lb, lf, hbs, hfs, ?_, ?_, ?_, ?_⟩
  · intro u
    rw [hbperm.mem_iff, hfperm.mem_iff]
  · intro u
    rw [hbperm.mem_iff]
    unfold missedOfList
    rw [List.mem_filterMap]
    constructor
    · rintro ⟨t, ht, hmu⟩
      exact ⟨t, ht, (missUrl_eq_some _ t u).mp hmu⟩
    · rintro ⟨t, ht, h1, h2⟩
      exact ⟨t, ht, (missUrl_eq_some _ t u).mpr ⟨h1, h2⟩⟩
  · intro hemp
    rw [hval, hbs]
    subst hemp
    rfl
  · intro hne
    rw [hval, hbs]
    have hlbe : lb.isEmpty = false := by
      rw [List.isEmpty_eq_false_iff_exists_mem]
      rcases List.exists_mem_of_ne_nil _ hne with ⟨x, hx⟩
      exact ⟨x, hx⟩
    show (if lb.isEmpty then (⟨[], false, some ()⟩ : VResult Unit)
      else ⟨[⟨.error, .missingStaticFiles lb, .file p.classFile⟩], true, none⟩) = _
    rw [hlbe]
    rfl

/-- Claim C10: when some item of the ui descriptor tree lacks a url, the
walk stops at the first such item it pops: the check returns at once with
the stop flag set and exactly one ERROR - the incorrect-ui-item one naming
that item's label - so the remaining worklist is never reported on and any
missed files already collected are silently discarded (no missing-files
ERROR appears). -/
theorem webappNoUrl_claim (p : WebappInput) (entries : List (String × UIItem))
    (hw : p.hasWebapp = true) (hwr : p.wrapped = true) (hr : p.hasRouter = true)
    (hui : p.ui = some entries)
    (hbad : ∃ t ∈ allItemsList (entries.map (·.2)), t.url = none) :
    ∃ t, t.url = none ∧ t ∈ allItemsList (entries.map (·.2)) ∧
      validate_webapp_extension p =
        ⟨[⟨.error, .noUrlUIItem t.label, .file p.classFile⟩], true, none⟩ := by
  rcases walkStackGo_err (urlExists p) (isizeList (entries.map (·.2))) (entries.map (·.2))
    le_rfl hbad with ⟨t, herr, hurl, hmem⟩
  have hval : validate_webapp_extension p =
      match walkStack (urlExists p) (entries.map (·.2)) with
      | .error t => ⟨[⟨.error, .noUrlUIItem t.label, .file p.classFile⟩], true, none⟩
      | .ok missed =>
        if missed.isEmpty then ⟨[], false, some ()⟩
        else ⟨[⟨.error, .missingStaticFiles missed, .file p.classFile⟩], true, none⟩ := by
    rw [validate_webapp_extension, hw, hwr, hr, hui]
    simp
  refine ⟨t, hurl, hmem, ?_⟩
  rw [hval]
  have hes : walkStack (urlExists p) (entries.map (·.2)) = .error t := herr
  rw [hes]

/-- Witness for C2: both missing files of the nested tree are reported in
the single missing-static-files ERROR with the stop flag set. -/
theorem webappTraversal_claim_witness :
    validate_webapp_extension c2input =
      ⟨[⟨.error, .missingStaticFiles ["/x", "/y"], .file "dir/ext.py"⟩], true, none⟩ := by
  obtain ⟨lb, lf, hb, hf, hmem, hchar, hemp, hne⟩ :=
    webappTraversal_claim c2input
      [("a", UIItem.mk (some "L") (some "/x") [UIItem.mk none (some "/y") []])]
      rfl rfl rfl rfl (by decide)
  have hcomp : walkStack (urlExists c2input)
      ([("a", UIItem.mk (some "L") (some "/x") [UIItem.mk none (some "/y") []])].map (·.2)) =
      .ok ["/x", "/y"] := rfl
  have hlb : lb = ["/x", "/y"] := by
    have hinj := hb.symm.trans hcomp
    exact Except.ok.inj hinj
  subst hlb
  exact hne (by simp)

/-- Witness for C10: the url-less item is reported as the only ERROR, with
the stop flag set and no missing-files diagnostic. -/
theorem webappNoUrl_claim_witness :
    validate_webapp_extension c10input =
      ⟨[⟨.error, .noUrlUIItem (some "bad"), .file "dir/ext.py"⟩], true, none⟩ := by
  obtain ⟨t, hurl, hmem, heq⟩ := webappNoUrl_claim c10input
    [("a", UIItem.mk (some "bad") none [])] rfl rfl rfl rfl
    ⟨UIItem.mk (some "bad") none [],
      by
        rw [show allItemsList ([("a", UIItem.mk (some "bad") none [])].map (·.2)) =
          [UIItem.mk (some "bad") none []] from rfl]
        exact List.mem_cons_self _ _,
      rfl⟩
  have ht : t = UIItem.mk (some "bad") none [] := by
    rw [show allItemsList ([("a", UIItem.mk (some "bad") none [])].map (·.2)) =
      [UIItem.mk (some "bad") none []] from rfl] at hmem
    simpa using hmem
  rw [ht] at heq
  exact heq

end ConnectCli
